import Mathlib

/-!
Verification of the `wgse_utils` build-time code-generation pipeline.

This development shallowly embeds the pipeline of `src/meta_collect.rs`,
`src/meta_generate.rs` and `src/lib.rs`:

* the JSON fragment store (`get_json_payload` / `set_json_payload`), including
  the base64 STANDARD encoding of the `raw` field, a byte-level JSON
  serializer/parser modelling `serde_json`'s compact `to_string` / `from_str`
  on `serde_json::Value`, and UTF-8 validation modelling `String::from_utf8`
  and `read_to_string`;
* the signature normalization passes (`preprocess_function_ast` in
  `meta_collect.rs`, the inline normalization in `wgse_command_interface_impl`);
* the interface comparison of `check_function_interface`;
* the capture macro `wgse_command` (`wgse_command_impl`) and the generation
  macro `wgse_command_trait_impl` (`parse_command_files`).

Rust strings are modelled as lists of byte values (`List Nat`, each `< 256`);
Rust `String`s additionally satisfy `isValidUtf8`.  File contents are byte
lists; paths are lists of path components relative to the project directory
(`env::current_dir()`).  Fallible Rust code returns `RResult`, with a distinct
`panic` outcome for `Option::unwrap` on `None`.
-/

set_option maxRecDepth 10000

namespace Wgse

/-- Byte values (ASCII codes) of a Lean string; used for ASCII text constants. -/
def strBytes (s : String) : List Nat :=
  s.data.map Char.toNat

/-! ## UTF-8 validation

Models `std::str` UTF-8 validity as used by `String::from_utf8` and
`Read::read_to_string`: ASCII, 2-byte (C2..DF), 3-byte (E0..EF with the
E0/ED overlong/surrogate restrictions) and 4-byte (F0..F4 with the F0/F4
range restrictions) sequences. -/

/-- A UTF-8 continuation byte: `0x80..0xBF`. -/
def isCont (b : Nat) : Bool :=
  128 ≤ b && b ≤ 191

/-- Second-byte restriction for a 3-byte sequence with lead byte `b1`. -/
def okSecond3 (b1 b2 : Nat) : Bool :=
  if b1 = 224 then 160 ≤ b2 && b2 ≤ 191
  else if b1 = 237 then 128 ≤ b2 && b2 ≤ 159
  else isCont b2

/-- Second-byte restriction for a 4-byte sequence with lead byte `b1`. -/
def okSecond4 (b1 b2 : Nat) : Bool :=
  if b1 = 240 then 144 ≤ b2 && b2 ≤ 191
  else if b1 = 244 then 128 ≤ b2 && b2 ≤ 143
  else isCont b2

mutual
/-- UTF-8 validity of a byte sequence. -/
def isValidUtf8 : List Nat → Bool
  | [] => true
  | b1 :: rest =>
    if b1 ≤ 127 then isValidUtf8 rest
    else if 194 ≤ b1 && b1 ≤ 223 then validTail1 rest
    else if 224 ≤ b1 && b1 ≤ 239 then validTail2 b1 rest
    else if 240 ≤ b1 && b1 ≤ 244 then validTail3 b1 rest
    else false

/-- Continuation byte followed by a valid tail (used for the last byte of a
multi-byte sequence). -/
def validTail1 : List Nat → Bool
  | b2 :: rest => isCont b2 && isValidUtf8 rest
  | [] => false

/-- Continuation of a 3-byte sequence with the given lead byte. -/
def validTail2 (b1 : Nat) : List Nat → Bool
  | b2 :: rest => okSecond3 b1 b2 && validTail1 rest
  | [] => false

/-- Two continuation bytes followed by a valid tail. -/
def contPair : List Nat → Bool
  | b3 :: rest => isCont b3 && validTail1 rest
  | [] => false

/-- Continuation of a 4-byte sequence with the given lead byte. -/
def validTail3 (b1 : Nat) : List Nat → Bool
  | b2 :: rest => okSecond4 b1 b2 && contPair rest
  | [] => false
end

/-! ## Base64 (STANDARD engine with padding)

Models `base64::engine::general_purpose::STANDARD`: the `A-Za-z0-9+/`
alphabet, mandatory `=` padding on encode, and strict decoding (canonical
padding required, non-alphabet symbols rejected, nonzero trailing bits of
the final quantum rejected). -/

/-- ASCII code of the base64 alphabet symbol for a sextet. -/
def b64Char (n : Nat) : Nat :=
  if n ≤ 25 then n + 65
  else if n ≤ 51 then n + 71
  else if n ≤ 61 then n - 4
  else if n = 62 then 43
  else 47

/-- Sextet value of an ASCII code, `none` for non-alphabet symbols
(including the padding symbol). -/
def b64Unchar (c : Nat) : Option Nat :=
  if 65 ≤ c && c ≤ 90 then some (c - 65)
  else if 97 ≤ c && c ≤ 122 then some (c - 71)
  else if 48 ≤ c && c ≤ 57 then some (c + 4)
  else if c = 43 then some 62
  else if c = 47 then some 63
  else none

/-- Base64-encode a byte list to the ASCII codes of its encoding. -/
def b64Encode : List Nat → List Nat
  | [] => []
  | [b1] => [b64Char (b1 / 4), b64Char (b1 % 4 * 16), 61, 61]
  | [b1, b2] =>
    [b64Char (b1 / 4), b64Char (b1 % 4 * 16 + b2 / 16), b64Char (b2 % 16 * 4), 61]
  | b1 :: b2 :: b3 :: rest =>
    b64Char (b1 / 4) :: b64Char (b1 % 4 * 16 + b2 / 16) ::
      b64Char (b2 % 16 * 4 + b3 / 64) :: b64Char (b3 % 64) :: b64Encode rest

/-- Strict base64 decoding of a list of ASCII codes. -/
def b64Decode : List Nat → Option (List Nat)
  | [] => some []
  | c1 :: c2 :: c3 :: c4 :: rest =>
    match b64Unchar c1, b64Unchar c2 with
    | some s1, some s2 =>
      if c3 = 61 then
        if c4 = 61 ∧ rest = [] ∧ s2 % 16 = 0 then some [s1 * 4 + s2 / 16] else none
      else
        match b64Unchar c3 with
        | some s3 =>
          if c4 = 61 then
            if rest = [] ∧ s3 % 4 = 0 then
              some [s1 * 4 + s2 / 16, s2 % 16 * 16 + s3 / 4]
            else none
          else
            match b64Unchar c4 with
            | some s4 =>
              match b64Decode rest with
              | some tl =>
                some ((s1 * 4 + s2 / 16) :: (s2 % 16 * 16 + s3 / 4) ::
                  (s3 % 4 * 64 + s4) :: tl)
              | none => none
            | none => none
        | none => none
    | _, _ => none
  | _ => some []

/-! ## JSON values

Models `serde_json::Value` restricted to what the pipeline stores and reads:
null, booleans, unsigned integers (the documents hold a `u8` code read back
with `as_u64`), strings (as byte lists), arrays and objects.  Objects are
association lists; `serde_json`'s `Value` keeps objects as maps with sorted
unique keys, so the documents this pipeline handles (distinct keys) are
represented faithfully up to field order. -/

mutual
inductive Json where
  | null : Json
  | bool (b : Bool) : Json
  | num (n : Nat) : Json
  | str (s : List Nat) : Json
  | arr (xs : JsonSeq) : Json
  | obj (fs : JsonFields) : Json

inductive JsonSeq where
  | nil : JsonSeq
  | cons (hd : Json) (tl : JsonSeq) : JsonSeq

inductive JsonFields where
  | nil : JsonFields
  | cons (k : List Nat) (v : Json) (tl : JsonFields) : JsonFields
end

/-- First binding of a key in an object's field list. -/
def fieldsLookup : JsonFields → List Nat → Option Json
  | .nil, _ => none
  | .cons k v tl, key => if key = k then some v else fieldsLookup tl key

/-- `value[key]` followed by a typed accessor: the bound value for objects,
`none` otherwise (`serde_json` indexing of a non-object yields `Null`, on
which every `as_*` accessor returns `None`). -/
def jsonLookup : Json → List Nat → Option Json
  | .obj fs, key => fieldsLookup fs key
  | _, _ => none

/-- Replace the first binding of `key` (append a fresh binding when absent),
modelling `serde_json` map insertion for object values. -/
def fieldsSet : JsonFields → List Nat → Json → JsonFields
  | .nil, key, v => .cons key v .nil
  | .cons k w tl, key, v =>
    if key = k then .cons k v tl else .cons k w (fieldsSet tl key v)

/-- `value[key] = v` on an object; identity otherwise (the store only ever
assigns into objects: on non-objects the code has already panicked while
evaluating the right-hand side). -/
def jsonSet : Json → List Nat → Json → Json
  | .obj fs, key, v => .obj (fieldsSet fs key v)
  | other, _, _ => other

/-! ## JSON serialization (`serde_json::to_string`, compact) -/

/-- Lowercase hex digit (ASCII code). -/
def hexDig (n : Nat) : Nat :=
  if n ≤ 9 then n + 48 else n + 87

/-- `serde_json` string escaping of one byte: quote and backslash escaped,
control bytes as the short escapes or `\u00XX`, all other bytes verbatim. -/
def escByte (b : Nat) : List Nat :=
  if b = 34 then [92, 34]
  else if b = 92 then [92, 92]
  else if b = 8 then [92, 98]
  else if b = 9 then [92, 116]
  else if b = 10 then [92, 110]
  else if b = 12 then [92, 102]
  else if b = 13 then [92, 114]
  else if b ≤ 31 then [92, 117, 48, 48, hexDig (b / 16), hexDig (b % 16)]
  else [b]

/-- String escaping of a byte list. -/
def escBytes : List Nat → List Nat
  | [] => []
  | b :: bs => escByte b ++ escBytes bs

/-- Serialized JSON string: quote, escaped bytes, quote. -/
def serStr (s : List Nat) : List Nat :=
  34 :: escBytes s ++ [34]

/-- Little-endian decimal digits, fuel-indexed (the fuel is an upper bound on
the number, which bounds the number of digits). -/
def natDigitsF : Nat → Nat → List Nat
  | 0, _ => []
  | fuel + 1, n => if n = 0 then [] else n % 10 :: natDigitsF fuel (n / 10)

/-- Little-endian decimal digits of a positive number (empty for zero). -/
def natDigits (n : Nat) : List Nat :=
  natDigitsF n n

/-- Decimal digits (ASCII codes) of an unsigned integer. -/
def serNat (n : Nat) : List Nat :=
  if n = 0 then [48] else (natDigits n).reverse.map (fun d => d + 48)

mutual
/-- Compact serialization of a JSON value, as `serde_json::to_string`. -/
def serialize : Json → List Nat
  | .null => [110, 117, 108, 108]
  | .bool true => [116, 114, 117, 101]
  | .bool false => [102, 97, 108, 115, 101]
  | .num n => serNat n
  | .str s => serStr s
  | .arr xs => 91 :: serSeq xs ++ [93]
  | .obj fs => 123 :: serFields fs ++ [125]

/-- Comma-separated serialization of array elements. -/
def serSeq : JsonSeq → List Nat
  | .nil => []
  | .cons x .nil => serialize x
  | .cons x (.cons y tl) => serialize x ++ 44 :: serSeq (.cons y tl)

/-- Comma-separated serialization of object members. -/
def serFields : JsonFields → List Nat
  | .nil => []
  | .cons k v .nil => serStr k ++ 58 :: serialize v
  | .cons k v (.cons k2 v2 tl) =>
    serStr k ++ 58 :: serialize v ++ 44 :: serFields (.cons k2 v2 tl)
end

/-! ## JSON parsing (`serde_json::from_str` on `Value`)

A fuel-indexed recursive-descent parser over bytes.  Restrictions relative
to `serde_json`, none of which the stored documents exercise: numbers are
unsigned integers without fraction/exponent, and `\uXXXX` escapes for
surrogate pairs are rejected rather than paired. -/

/-- JSON insignificant whitespace bytes. -/
def isWsByte (b : Nat) : Bool :=
  b = 32 || b = 9 || b = 10 || b = 13

/-- Skip leading whitespace. -/
def dropWs (l : List Nat) : List Nat :=
  l.dropWhile isWsByte

/-- ASCII decimal digit test. -/
def isDigitByte (b : Nat) : Bool :=
  48 ≤ b && b ≤ 57

/-- Hex digit value of an ASCII code. -/
def unhex (c : Nat) : Option Nat :=
  if 48 ≤ c && c ≤ 57 then some (c - 48)
  else if 97 ≤ c && c ≤ 102 then some (c - 87)
  else if 65 ≤ c && c ≤ 70 then some (c - 55)
  else none

/-- UTF-8 encoding of a code point (used for `\uXXXX` escapes). -/
def utf8EncodeCp (cp : Nat) : List Nat :=
  if cp ≤ 127 then [cp]
  else if cp ≤ 2047 then [192 + cp / 64, 128 + cp % 64]
  else if cp ≤ 65535 then [224 + cp / 4096, 128 + cp / 64 % 64, 128 + cp % 64]
  else [240 + cp / 262144, 128 + cp / 4096 % 64, 128 + cp / 64 % 64, 128 + cp % 64]

/-- Parse a JSON string body after the opening quote; returns the decoded
bytes and the remaining input after the closing quote. -/
def parseStrBody : List Nat → Option (List Nat × List Nat)
  | [] => none
  | b :: rest =>
    if b = 34 then some ([], rest)
    else if b = 92 then
      match rest with
      | [] => none
      | e :: rest2 =>
        if e = 34 then (parseStrBody rest2).map (fun p => (34 :: p.1, p.2))
        else if e = 92 then (parseStrBody rest2).map (fun p => (92 :: p.1, p.2))
        else if e = 47 then (parseStrBody rest2).map (fun p => (47 :: p.1, p.2))
        else if e = 98 then (parseStrBody rest2).map (fun p => (8 :: p.1, p.2))
        else if e = 116 then (parseStrBody rest2).map (fun p => (9 :: p.1, p.2))
        else if e = 110 then (parseStrBody rest2).map (fun p => (10 :: p.1, p.2))
        else if e = 102 then (parseStrBody rest2).map (fun p => (12 :: p.1, p.2))
        else if e = 114 then (parseStrBody rest2).map (fun p => (13 :: p.1, p.2))
        else if e = 117 then
          match rest2 with
          | h1 :: h2 :: h3 :: h4 :: rest3 =>
            match unhex h1, unhex h2, unhex h3, unhex h4 with
            | some a, some b2, some c, some d =>
              let cp := ((a * 16 + b2) * 16 + c) * 16 + d
              if 55296 ≤ cp ∧ cp ≤ 57343 then none
              else (parseStrBody rest3).map (fun p => (utf8EncodeCp cp ++ p.1, p.2))
            | _, _, _, _ => none
          | _ => none
        else none
    else if b ≤ 31 then none
    else (parseStrBody rest).map (fun p => (b :: p.1, p.2))

/-- Parse an unsigned decimal number at the head of the input. -/
def parseNum (l : List Nat) : Option (Json × List Nat) :=
  let ds := l.takeWhile isDigitByte
  if ds = [] then none
  else
    some (.num (Nat.ofDigits 10 ((ds.map (fun d => d - 48)).reverse)),
      l.dropWhile isDigitByte)

mutual
/-- Parse one JSON value (fuel-indexed). -/
def parseValue : Nat → List Nat → Option (Json × List Nat)
  | 0, _ => none
  | fuel + 1, input =>
    match dropWs input with
    | [] => none
    | b :: rest =>
      if b = 110 then
        match rest with
        | 117 :: 108 :: 108 :: r => some (.null, r)
        | _ => none
      else if b = 116 then
        match rest with
        | 114 :: 117 :: 101 :: r => some (.bool true, r)
        | _ => none
      else if b = 102 then
        match rest with
        | 97 :: 108 :: 115 :: 101 :: r => some (.bool false, r)
        | _ => none
      else if b = 34 then
        (parseStrBody rest).map (fun p => (.str p.1, p.2))
      else if b = 91 then
        match dropWs rest with
        | 93 :: r => some (.arr .nil, r)
        | r1 => (parseElems fuel r1).map (fun p => (.arr p.1, p.2))
      else if b = 123 then
        match dropWs rest with
        | 125 :: r => some (.obj .nil, r)
        | r1 => (parseMembers fuel r1).map (fun p => (.obj p.1, p.2))
      else if isDigitByte b then parseNum (b :: rest)
      else none

/-- Parse one or more comma-separated array elements and the closing bracket. -/
def parseElems : Nat → List Nat → Option (JsonSeq × List Nat)
  | 0, _ => none
  | fuel + 1, input =>
    match parseValue fuel input with
    | none => none
    | some (v, r) =>
      match dropWs r with
      | 44 :: r2 => (parseElems fuel r2).map (fun p => (.cons v p.1, p.2))
      | 93 :: r2 => some (.cons v .nil, r2)
      | _ => none

/-- Parse one or more comma-separated object members and the closing brace. -/
def parseMembers : Nat → List Nat → Option (JsonFields × List Nat)
  | 0, _ => none
  | fuel + 1, input =>
    match dropWs input with
    | [] => none
    | b :: rest =>
      if b = 34 then
        match parseStrBody rest with
        | none => none
        | some (k, r2) =>
          match dropWs r2 with
          | 58 :: r3 =>
            match parseValue fuel r3 with
            | none => none
            | some (v, r4) =>
              match dropWs r4 with
              | 44 :: r5 => (parseMembers fuel r5).map (fun p => (.cons k v p.1, p.2))
              | 125 :: r5 => some (.cons k v .nil, r5)
              | _ => none
          | _ => none
      else none
end

/-- `serde_json::from_str::<Value>`: parse a complete document, allowing
trailing whitespace only. -/
def fromStr (content : List Nat) : Option Json :=
  match parseValue (content.length + 1) content with
  | some (v, rest) => if dropWs rest = [] then some v else none
  | none => none

/-! ## File system

Files are byte lists keyed by paths relative to `env::current_dir()`;
a path is its list of components.  `fsSet` models `File::create` (truncate
or create, unconditional overwrite). -/

/-- Project file-system state. -/
abbrev Fs := List (List String × List Nat)

/-- Empty project directory. -/
def fsEmpty : Fs := []

/-- Content of the file at a path (`File::open` + `read_to_string` source). -/
def fsGet : Fs → List String → Option (List Nat)
  | [], _ => none
  | (q, c) :: rest, p => if p = q then some c else fsGet rest p

/-- Overwrite or create the file at a path. -/
def fsSet (fs : Fs) (p : List String) (c : List Nat) : Fs :=
  (p, c) :: fs

/-! ## Errors and results -/

/-- The two messages `InvalidInterfaceError` is constructed with in
`meta_collect.rs`. -/
inductive IfaceMsg where
  /-- "no interface signature found. run `cargo build --features meta_init`
  once before run `cargo build --features meta_collect`." -/
  | noSignature : IfaceMsg
  /-- "inconsistent interface signature. expect `..`, found `..`." -/
  | inconsistent (expect found : List Nat) : IfaceMsg
deriving DecidableEq

/-- Error values propagated through `anyhow::Result` by the pipeline. -/
inductive RErr where
  /-- `std::io` failure: `File::open` on a missing file, or `read_to_string`
  on unreadable (including non-UTF-8) content. -/
  | ioErr : RErr
  /-- `serde_json::from_str` failure. -/
  | jsonErr : RErr
  /-- base64 decode failure. -/
  | base64Err : RErr
  /-- `String::from_utf8` failure on decoded bytes. -/
  | utf8Err : RErr
  /-- `InvalidInterfaceError`. -/
  | invalidInterface (m : IfaceMsg) : RErr
  /-- `syn` parse failure (`parse_str` on a stored fragment). -/
  | synErr : RErr
deriving DecidableEq

/-- Outcome of fallible Rust code: success, a propagated error, or a panic
(`Option::unwrap` on `None`). -/
inductive RResult (α : Type) where
  | ok (a : α) : RResult α
  | err (e : RErr) : RResult α
  | panic : RResult α

/-! ## The JSON payload store

`get_json_payload` and `set_json_payload` are textually identical in
`meta_collect.rs` (lines 154-171) and `meta_generate.rs` (lines 125-142);
one definition models both. -/

/-- The `"raw"` field key. -/
def rawKey : List Nat := strBytes "raw"

/-- The `"name"` field key. -/
def nameKey : List Nat := strBytes "name"

/-- The `"code"` field key. -/
def codeKey : List Nat := strBytes "code"

/-- `get_json_payload`: read the file, parse it as JSON, then replace the
`raw` field by the UTF-8 string of its base64 decoding.
`json_value["raw"].as_str().unwrap()` panics when the parsed document has no
string `raw` field. -/
def get_json_payload (fs : Fs) (path : List String) : RResult Json :=
  match fsGet fs path with
  | none => .err .ioErr
  | some content =>
    if isValidUtf8 content = false then .err .ioErr
    else
      match fromStr content with
      | none => .err .jsonErr
      | some v =>
        match jsonLookup v rawKey with
        | some (.str s) =>
          match b64Decode s with
          | none => .err .base64Err
          | some bytes =>
            if isValidUtf8 bytes then .ok (jsonSet v rawKey (.str bytes))
            else .err .utf8Err
        | _ => .panic

/-- `set_json_payload`: replace the `raw` field by its base64 encoding and
write the serialized document.  `json_value["raw"].as_str().unwrap()` panics
when the document has no string `raw` field. -/
def set_json_payload (fs : Fs) (path : List String) (v : Json) : RResult Fs :=
  match jsonLookup v rawKey with
  | some (.str s) =>
    .ok (fsSet fs path (serialize (jsonSet v rawKey (.str (b64Encode s)))))
  | _ => .panic

/-! ## Rust function declarations

A restriction of `syn`'s `ItemFn`/`TraitItemFn` to the shapes the pipeline
manipulates: attributes, visibility and types are opaque token text;
parameter patterns are either plain identifiers (`Pat::Ident`, the only
shape the normalization rewrites) or tuples of identifiers (a representative
non-`Ident` pattern).  `printFn`/`printSig` model
`quote! \x7b #ast \x7d.to_string()` token spacing. -/

/-- A parameter pattern. -/
inductive RsPat where
  | ident (nm : String) : RsPat
  | tuple (nms : List String) : RsPat
deriving DecidableEq

/-- A function parameter: the injected `&self` receiver or a typed pattern. -/
inductive RsArg where
  | receiver : RsArg
  | typed (pat : RsPat) (ty : String) : RsArg
deriving DecidableEq

/-- Visibility. -/
inductive RsVis where
  | pub : RsVis
  | inherited : RsVis
deriving DecidableEq

/-- A function signature. -/
structure RsSig where
  ident : String
  inputs : List RsArg
  output : Option String
deriving DecidableEq

/-- A free function item (`syn::ItemFn`). -/
structure RsFn where
  attrs : List String
  vis : RsVis
  sig : RsSig
  body : String
deriving DecidableEq

/-- A trait method item (`syn::TraitItemFn`, no visibility, no body). -/
structure RsTraitFn where
  attrs : List String
  sig : RsSig
deriving DecidableEq

/-- Join strings with a separator. -/
def joinSep (sep : String) : List String → String
  | [] => ""
  | [x] => x
  | x :: y :: tl => x ++ sep ++ joinSep sep (y :: tl)

/-- Token text of a pattern. -/
def printPat : RsPat → String
  | .ident nm => nm
  | .tuple nms => "(" ++ joinSep " , " nms ++ ")"

/-- Token text of a parameter. -/
def printArg : RsArg → String
  | .receiver => "& self"
  | .typed p ty => printPat p ++ " : " ++ ty

/-- Token text of a signature. -/
def printSig (s : RsSig) : String :=
  "fn " ++ s.ident ++ " (" ++ joinSep " , " (s.inputs.map printArg) ++ ")" ++
    (match s.output with
     | none => ""
     | some t => " -> " ++ t)

/-- Token text of an attribute list. -/
def printAttrs : List String → String
  | [] => ""
  | a :: tl => "# [" ++ a ++ "] " ++ printAttrs tl

/-- Token text of a function item, `quote! \x7b #ast \x7d.to_string()`. -/
def printFn (f : RsFn) : String :=
  printAttrs f.attrs ++
    (match f.vis with
     | .pub => "pub "
     | .inherited => "") ++
    printSig f.sig ++ " \x7b " ++ f.body ++ " \x7d"

/-- Token text of a trait method item (terminated by a semicolon). -/
def printTraitFn (t : RsTraitFn) : String :=
  printAttrs t.attrs ++ printSig t.sig ++ " ;"

/-! ## Case conversion

Models `convert_case` (`Case::Snake`, `Case::UpperCamel`, `Case::UpperSnake`)
restricted to ASCII names split at `_`/`-`/space separators and at
lower-to-upper boundaries — the boundary set the pipeline's command names
exercise. -/

/-- Word splitting: previous character, current word (reversed), input. -/
def splitWordsAux : Option Char → List Char → List Char → List (List Char)
  | _, cur, [] => if cur = [] then [] else [cur.reverse]
  | prev, cur, c :: rest =>
    if c = '_' || c = '-' || c = ' ' then
      (if cur = [] then [] else [cur.reverse]) ++ splitWordsAux none [] rest
    else if c.isUpper && (match prev with
      | some p => p.isLower
      | none => false) then
      (if cur = [] then [] else [cur.reverse]) ++ splitWordsAux (some c) [c] rest
    else splitWordsAux (some c) (c :: cur) rest

/-- Split a name into case words. -/
def splitWords (s : String) : List String :=
  (splitWordsAux none [] s.data).map String.mk

/-- Lowercase a word. -/
def lowerWord (w : String) : String :=
  String.mk (w.data.map Char.toLower)

/-- Uppercase a word. -/
def upperWord (w : String) : String :=
  String.mk (w.data.map Char.toUpper)

/-- Capitalize a word (first letter upper, rest lower). -/
def capWord (w : String) : String :=
  match w.data with
  | [] => ""
  | c :: tl => String.mk (c.toUpper :: tl.map Char.toLower)

/-- `name.to_case(Case::Snake)`. -/
def toSnakeCase (s : String) : String :=
  joinSep "_" ((splitWords s).map lowerWord)

/-- `name.to_case(Case::UpperCamel)`. -/
def toUpperCamel (s : String) : String :=
  String.join ((splitWords s).map capWord)

/-- `name.to_case(Case::UpperSnake)`. -/
def toUpperSnake (s : String) : String :=
  joinSep "_" ((splitWords s).map upperWord)

/-! ## Paths used by the pipeline -/

/-- `src/.autogen/interface.json`, the Interface Capture Record location
(both `meta_collect.rs` line 134 and `meta_generate.rs` line 19). -/
def autogenInterfacePath : List String :=
  ["src", ".autogen", "interface.json"]

/-- `format!("src/.autogen/wgse_command/\x7b\x7d.json", args.name.to_case(Case::Snake))`:
where `wgse_command_impl` writes a command fragment (`meta_collect.rs`
lines 88-91). -/
def captureFragmentPath (name : String) : List String :=
  ["src", ".autogen", "wgse_command", toSnakeCase name ++ ".json"]

/-- `src/.autogen/wgse_commands`, the directory `wgse_command_trait_impl`
recursively walks (`meta_generate.rs` line 40). -/
def generateFragmentDir : List String :=
  ["src", ".autogen", "wgse_commands"]

/-- A path strictly below a directory (every file yielded by a `WalkDir`
rooted at `dir` has this shape). -/
def isUnderDir (dir p : List String) : Bool :=
  dir.isPrefixOf p && decide (dir.length < p.length)

/-! ## `meta_collect.rs` -/

/-- The per-parameter rewrite of the `for_each` loops: a `Pat::Ident` binding
is renamed to the placeholder `_`; every other parameter (receivers,
non-identifier patterns) is left unchanged. -/
def renameArgPat : RsArg → RsArg
  | .typed (.ident _) ty => .typed (.ident "_") ty
  | a => a

/-- The `for_each` loop over all inputs. -/
def renamePats (args : List RsArg) : List RsArg :=
  args.map renameArgPat

/-- `preprocess_function_ast`: clear attributes, reset visibility, rename the
function to `_`, insert a `&self` receiver first, then rename every
`Pat::Ident` parameter binding to `_`. -/
def preprocess_function_ast (f : RsFn) : RsFn :=
  { attrs := [],
    vis := .inherited,
    sig := { ident := "_",
             inputs := renamePats (.receiver :: f.sig.inputs),
             output := f.sig.output },
    body := f.body }

/-- The right-hand side of the comparison in `check_function_interface`
(line 142): `quote! \x7b #(func.sig.clone()) \x7d.to_string()`.  No variable
`func` is in scope there; `quote!` treats `#` followed by a parenthesized
group that is not a repetition (`#(...)*`) as literal tokens, so the
expression evaluates to the constant token text below, independent of the
function being checked. -/
def funcSignatureText : List Nat :=
  strBytes "# (func . sig . clone ())"

/-- `check_function_interface`: preprocess a clone of the function, read the
Interface Capture Record, and compare its decoded `raw` text against
`funcSignatureText` (the quote slip: the preprocessed clone is never used).
A missing string `raw` field is `InvalidInterfaceError` (`ok_or`); a text
mismatch is `InvalidInterfaceError` naming both sides. -/
def check_function_interface (fs : Fs) (f : RsFn) : RResult Unit :=
  let _ := preprocess_function_ast f
  match get_json_payload fs autogenInterfacePath with
  | .ok payload =>
    match jsonLookup payload rawKey with
    | some (.str sig) =>
      if sig = funcSignatureText then .ok ()
      else .err (.invalidInterface (.inconsistent sig funcSignatureText))
    | _ => .err (.invalidInterface .noSignature)
  | .err e => .err e
  | .panic => .panic

/-- The parsed `#[wgse_command(<code>, <name>)]` arguments (`code` parsed
with `base10_parse::<u8>`). -/
structure MetaCollectArgs where
  code : Nat
  name : String

/-- `ast.sig.inputs.insert(0, parse::<FnArg>(quote! \x7b &self \x7d))`. -/
def insertReceiver (f : RsFn) : RsFn :=
  { f with sig := { f.sig with inputs := .receiver :: f.sig.inputs } }

/-- `wgse_command_impl`: check the interface on a clone, inject the receiver
into the original declaration, and persist
`\x7b "name", "code", "raw" \x7d` (the `serde_json` map holds its keys in
sorted order) at `captureFragmentPath`. -/
def wgse_command_impl (args : MetaCollectArgs) (ast : RsFn) (fs : Fs) :
    RResult (Fs × RsFn) :=
  match check_function_interface fs ast with
  | .ok _ =>
    let ast2 := insertReceiver ast
    let payload : Json :=
      .obj (.cons codeKey (.num args.code)
        (.cons nameKey (.str (strBytes args.name))
          (.cons rawKey (.str (strBytes (printFn ast2))) .nil)))
    (match set_json_payload fs (captureFragmentPath args.name) payload with
     | .ok fs2 => .ok (fs2, ast2)
     | .err e => .err e
     | .panic => .panic)
  | .err e => .err e
  | .panic => .panic

/-- The `wgse_command` attribute macro (`lib.rs` lines 110-130): run
`wgse_command_impl`; on failure return the compile error (modelled as the
error value); on success return the untouched input tokens under
`cfg(debug_assertions)` and an empty token stream (`none`) otherwise. -/
def wgse_command (debugAssertions : Bool) (args : MetaCollectArgs)
    (input : RsFn) (fs : Fs) : RResult (Option RsFn × Fs) :=
  match wgse_command_impl args input fs with
  | .ok (fs2, _) => .ok ((if debugAssertions then some input else none), fs2)
  | .err e => .err e
  | .panic => .panic

/-! ## `meta_generate.rs` -/

/-- The inline normalization of `wgse_command_interface_impl` (lines 21-32):
clear attributes, rename to `_`, rename `Pat::Ident` parameter bindings to
`_`.  No receiver is inserted (the trait method declares its own) and
`TraitItemFn` has no visibility to reset. -/
def interfaceNormalize (input : RsTraitFn) : RsTraitFn :=
  { attrs := [],
    sig := { ident := "_",
             inputs := renamePats input.sig.inputs,
             output := input.sig.output } }

/-- `wgse_command_interface_impl`: persist the normalized signature text as
the Interface Capture Record and return the input unchanged. -/
def wgse_command_interface_impl (input : RsTraitFn) (fs : Fs) :
    RResult (Fs × RsTraitFn) :=
  match set_json_payload fs autogenInterfacePath
      (.obj (.cons rawKey (.str (strBytes (printTraitFn (interfaceNormalize input)))) .nil)) with
  | .ok fs2 => .ok (fs2, input)
  | .err e => .err e
  | .panic => .panic

/-- The target tagged union (`parse::<ItemEnum>(input)`), reduced to its
name. -/
structure RsEnum where
  ident : String
deriving DecidableEq

/-- One synthesized declaration of the generation phase. -/
inductive GenDecl where
  /-- `const <UPPER_SNAKE>: u8 = <code>;` -/
  | constDecl (nm : String) (code : Nat) : GenDecl
  /-- `pub struct <UpperCamel>;` with its derives. -/
  | markerStruct (nm : String) : GenDecl
  /-- `impl <trait> for <marker> \x7b <fn> \x7d` -/
  | implDecl (traitName : String) (markerName : String) (fn : RsFn) : GenDecl
  /-- The tagged union with the discovered variants. -/
  | enumDecl (target : RsEnum) (tags : List String) : GenDecl
  /-- `impl Default`: `default()` constructs the named variant. -/
  | defaultImpl (target : RsEnum) (variant : String) : GenDecl
deriving DecidableEq

/-- One entry yielded by the `WalkDir` iterator. -/
structure DirEntry where
  path : List String
  isFile : Bool
deriving DecidableEq

/-- Opening brace character. -/
def lbraceChar : Char := Char.ofNat 123

/-- Closing brace character. -/
def rbraceChar : Char := Char.ofNat 125

/-- Strip a literal token sequence. -/
def dropPre (pre l : List Char) : Option (List Char) :=
  if pre.isPrefixOf l then some (l.drop pre.length) else none

/-- Split at the first occurrence of a separator, consuming it. -/
def splitFirst (sep : List Char) : List Char → Option (List Char × List Char)
  | [] => none
  | c :: rest =>
    if sep.isPrefixOf (c :: rest) then some ([], (c :: rest).drop sep.length)
    else (splitFirst sep rest).map (fun p => (c :: p.1, p.2))

/-- Scan to the parenthesis closing the one already opened
(depth, accumulator reversed, input). -/
def spanParen : Nat → List Char → List Char → Option (List Char × List Char)
  | _, _, [] => none
  | d, acc, c :: rest =>
    if c = ')' then
      if d = 0 then some (acc.reverse, rest) else spanParen (d - 1) (')' :: acc) rest
    else if c = '(' then spanParen (d + 1) ('(' :: acc) rest
    else spanParen d (c :: acc) rest

/-- Split on commas at parenthesis depth zero. -/
def splitTopCommas : Nat → List Char → List Char → List (List Char)
  | _, cur, [] => [cur.reverse]
  | d, cur, c :: rest =>
    if c = ',' && d = 0 then cur.reverse :: splitTopCommas 0 [] rest
    else
      splitTopCommas (if c = '(' then d + 1 else if c = ')' then d - 1 else d)
        (c :: cur) rest

/-- Trim surrounding spaces. -/
def trimSpaces (l : List Char) : List Char :=
  ((l.dropWhile (fun c => c = ' ')).reverse.dropWhile (fun c => c = ' ')).reverse

/-- Parse one parameter's token text. -/
def parseArgChars (l : List Char) : Option RsArg :=
  if l = ['&', ' ', 's', 'e', 'l', 'f'] then some .receiver
  else
    match splitFirst [' ', ':', ' '] l with
    | none => none
    | some (patCs, tyCs) =>
      if tyCs = [] then none
      else
        match patCs with
        | '(' :: inner =>
          if inner.reverse.headI = ')' ∧ inner ≠ [] then
            some (.typed (.tuple ((splitTopCommas 0 [] (inner.take (inner.length - 1))).map
              (fun w => String.mk (trimSpaces w)))) (String.mk tyCs))
          else none
        | _ => some (.typed (.ident (String.mk patCs)) (String.mk tyCs))

/-- Parse each parameter. -/
def parseArgList : List (List Char) → Option (List RsArg)
  | [] => some []
  | a :: tl =>
    match parseArgChars a, parseArgList tl with
    | some x, some xs => some (x :: xs)
    | _, _ => none

/-- Parse leading attributes (fuel-indexed loop). -/
def parseAttrsLoop : Nat → List Char → List String × List Char
  | 0, l => ([], l)
  | fuel + 1, l =>
    match dropPre ['#', ' ', '['] l with
    | none => ([], l)
    | some r =>
      match splitFirst [']', ' '] r with
      | none => ([], l)
      | some (inner, r2) =>
        let p := parseAttrsLoop fuel r2
        (String.mk inner :: p.1, p.2)

/-- `syn::parse_str::<ItemFn>` restricted to the token shapes this pipeline
prints (the fragment store only ever holds `printFn` output): attributes,
optional `pub`, `fn name ( args ) [-> ty] \x7b body \x7d` over ASCII bytes. -/
def parseItemFn (bytes : List Nat) : Option RsFn :=
  let cs := bytes.map Char.ofNat
  let ap := parseAttrsLoop cs.length cs
  let vp : RsVis × List Char :=
    match dropPre ['p', 'u', 'b', ' '] ap.2 with
    | some r => (.pub, r)
    | none => (.inherited, ap.2)
  match dropPre ['f', 'n', ' '] vp.2 with
  | none => none
  | some r2 =>
    let identCs := r2.takeWhile (fun c => c ≠ ' ')
    match dropPre (identCs ++ [' ', '(']) r2 with
    | none => none
    | some r3 =>
      match spanParen 0 [] r3 with
      | none => none
      | some (inner, r4) =>
        let pieces := (splitTopCommas 0 [] inner).map trimSpaces
        match parseArgList (if pieces = [[]] then [] else pieces) with
        | none => none
        | some args =>
          let finish : Option String → List Char → Option RsFn := fun out bodyRest =>
            if [' ', rbraceChar].isSuffixOf bodyRest then
              some { attrs := ap.1,
                     vis := vp.1,
                     sig := { ident := String.mk identCs,
                              inputs := args,
                              output := out },
                     body := String.mk (bodyRest.take (bodyRest.length - 2)) }
            else none
          match dropPre [' ', '-', '>', ' '] r4 with
          | some r5 =>
            match splitFirst [' ', lbraceChar, ' '] r5 with
            | none => none
            | some (outCs, bodyRest) => finish (some (String.mk outCs)) bodyRest
          | none =>
            match dropPre [' ', lbraceChar, ' '] r4 with
            | none => none
            | some bodyRest => finish none bodyRest

/-- First-char-alpha identifier validity (`syn::parse_str::<Ident>`). -/
def isIdentStr (s : String) : Bool :=
  match s.data with
  | [] => false
  | c :: tl => (c.isAlpha || c = '_') && tl.all (fun d => d.isAlphanum || d = '_')

/-- ASCII bytes back to a string (`as_str` on decoded payload text; the
pipeline's names are ASCII). -/
def bytesToString (l : List Nat) : String :=
  String.mk (l.map Char.ofNat)

/-- The per-file body of the `parse_command_files` loop: skip non-files,
load and decode the fragment (`get_json_payload`, aborting the phase on its
errors), read `name` (`as_str().unwrap()`) and `code` (`as_u64().unwrap()`),
parse the stored function (`parse_str::<ItemFn>`, aborting on failure),
rename it to `execute` with reduced visibility, and prepend the constant,
marker struct, trait impl and variant tag to the accumulated result. -/
def process_command_file (fs : Fs) (traitName : String) (entry : DirEntry)
    (restResult : RResult (List GenDecl × List String)) :
    RResult (List GenDecl × List String) :=
  if entry.isFile = false then restResult
  else
    match get_json_payload fs entry.path with
    | .err e => .err e
    | .panic => .panic
    | .ok payload =>
      match jsonLookup payload nameKey with
      | some (.str nameBytes) =>
        match jsonLookup payload codeKey with
        | some (.num code) =>
          match jsonLookup payload rawKey with
          | some (.str raw) =>
            match parseItemFn raw with
            | none => .err .synErr
            | some fn =>
              let nm := toUpperCamel (bytesToString nameBytes)
              if isIdentStr nm && isIdentStr (toUpperSnake nm) then
                let fn2 : RsFn :=
                  { fn with vis := .inherited,
                            sig := { fn.sig with ident := "execute" } }
                match restResult with
                | .ok (decls, tags) =>
                  .ok (GenDecl.constDecl (toUpperSnake nm) code ::
                    GenDecl.markerStruct nm ::
                    GenDecl.implDecl traitName nm fn2 :: decls, nm :: tags)
                | .err e => .err e
                | .panic => .panic
              else .err .synErr
          | _ => .panic
        | _ => .panic
      | _ => .panic

/-- `parse_command_files`: iterate the `WalkDir` entries (failed traversal
entries dropped by `filter_map(|path| path.ok())`), processing each file via
`process_command_file`.  The entry list is a parameter because `WalkDir`
order is filesystem-dependent. -/
def parse_command_files (fs : Fs) (traitName : String) :
    List (Except Unit DirEntry) → RResult (List GenDecl × List String)
  | [] => .ok ([], [])
  | .error _ :: rest => parse_command_files fs traitName rest
  | .ok entry :: rest =>
    process_command_file fs traitName entry (parse_command_files fs traitName rest)

/-- `wgse_command_trait_impl` (lines 38-68): collect the per-fragment
declarations and tags, then append the tagged union over exactly the
collected tags and the `Default` implementation whose body is the hardcoded
`#target_enum::Nope(Nope)` — the `Nope` variant name is written literally in
the macro (line 60), whatever tags were discovered. -/
def wgse_command_trait_impl (fs : Fs) (entries : List (Except Unit DirEntry))
    (traitName : String) (targetEnum : RsEnum) : RResult (List GenDecl) :=
  match parse_command_files fs traitName entries with
  | .ok (decls, tags) =>
    .ok (decls ++ [.enumDecl targetEnum tags, .defaultImpl targetEnum "Nope"])
  | .err e => .err e
  | .panic => .panic

/-! ## Predicates used by the specification statements -/

/-- Byte-list content of a Rust `String`: byte values with valid UTF-8. -/
def okBytes (s : List Nat) : Bool :=
  s.all (fun b => b ≤ 255) && isValidUtf8 s

/-- Scalar JSON values whose strings are Rust string content. -/
def scalarOk : Json → Bool
  | .null => true
  | .bool _ => true
  | .num _ => true
  | .str s => okBytes s
  | _ => false

/-- Keys of a field list. -/
def keysOf : JsonFields → List (List Nat)
  | .nil => []
  | .cons k _ tl => k :: keysOf tl

/-- Distinct keys (a `serde_json` object is a map, so any value it
represents has them). -/
def keysNodup : JsonFields → Bool
  | .nil => true
  | .cons k _ tl => !(keysOf tl).contains k && keysNodup tl

/-- Member count. -/
def lenFields : JsonFields → Nat
  | .nil => 0
  | .cons _ _ tl => lenFields tl + 1

/-- Flat members: Rust-string keys bound to scalar values. -/
def flatFields : JsonFields → Bool
  | .nil => true
  | .cons k v tl => okBytes k && scalarOk v && flatFields tl

/-- A flat document: an object of scalar members with distinct keys — the
shape of every document this pipeline writes. -/
def flatDocOk : Json → Bool
  | .obj fs => flatFields fs && keysNodup fs
  | _ => false

/-- The next input byte (if any) is not a decimal digit; after a serialized
number inside a document the next byte is a comma or closing bracket. -/
def headNotDigit : List Nat → Bool
  | [] => true
  | b :: _ => !isDigitByte b

/-- Tail condition under which a serialized scalar parses back exactly:
numbers must not be followed directly by another digit. -/
def numTail : Json → List Nat → Bool
  | .num _, rest => headNotDigit rest
  | _, _ => true

/-- A `WalkDir` entry that is not a traversal error. -/
def entryOk : Except Unit DirEntry → Bool
  | .ok _ => true
  | .error _ => false

/-- Success projection for the capture macro's result. -/
def macroIsOk : RResult (Option RsFn × Fs) → Bool
  | .ok _ => true
  | _ => false

/-- Returned token stream of the capture macro (`none` is the empty stream). -/
def macroOut : RResult (Option RsFn × Fs) → Option RsFn
  | .ok (o, _) => o
  | _ => none

/-- The read-failure conditions of the round-trip claim for the store:
missing file, unreadable (non-UTF-8) content, invalid JSON, or a string
`raw` field that is not valid base64. -/
def storeReadBad (fs : Fs) (path : List String) : Prop :=
  fsGet fs path = none
  ∨ (∃ c, fsGet fs path = some c ∧ isValidUtf8 c = false)
  ∨ (∃ c, fsGet fs path = some c ∧ isValidUtf8 c = true ∧ fromStr c = none)
  ∨ (∃ c v s, fsGet fs path = some c ∧ isValidUtf8 c = true ∧
      fromStr c = some v ∧ jsonLookup v rawKey = some (.str s) ∧ b64Decode s = none)

/-- Parameters of the same structural shape: receivers match, identifier
patterns match up to the bound name when the types are equal, and any other
pattern must be identical (names included). -/
def sameShapeArg : RsArg → RsArg → Prop
  | .receiver, .receiver => True
  | .typed (.ident _) ty, .typed (.ident _) ty2 => ty = ty2
  | .typed (.tuple ps) ty, .typed (.tuple qs) ty2 => ps = qs ∧ ty = ty2
  | _, _ => False

/-! ## Concrete fixtures -/

/-- A representative command implementation, written as a free function. -/
def execFn0 : RsFn :=
  { attrs := [],
    vis := .pub,
    sig := { ident := "execute_nope",
             inputs := [.typed (.ident "kernel") "& mut VirtualMachine",
               .typed (.ident "args") "& BinVec < Argument >"],
             output := some "Result < () >" },
    body := "Ok (())" }

/-- The abstract interface method, as declared in the trait. -/
def ifaceFn0 : RsTraitFn :=
  { attrs := [],
    sig := { ident := "execute",
             inputs := [.receiver,
               .typed (.ident "kernel") "& mut VirtualMachine",
               .typed (.ident "args") "& BinVec < Argument >"],
             output := some "Result < () >" } }

/-- `#[wgse_command(0x00, "Nope")]` arguments. -/
def args0 : MetaCollectArgs :=
  { code := 0, name := "Nope" }

/-- A store whose Interface Capture Record holds exactly the canonical
(identifier-erased, receiver-injected) signature text of `execFn0` — the
record the claim's matching case describes. -/
def fsCanonical : Fs :=
  fsSet fsEmpty autogenInterfacePath
    (serialize (.obj (.cons rawKey
      (.str (b64Encode (strBytes (printSig (preprocess_function_ast execFn0).sig)))) .nil)))

/-- A store whose Interface Capture Record holds the constant text
`funcSignatureText` — the only record content the buggy comparison accepts. -/
def fsAccepting : Fs :=
  fsSet fsEmpty autogenInterfacePath
    (serialize (.obj (.cons rawKey (.str (b64Encode funcSignatureText)) .nil)))

/-- Two functions identical except for identifier-pattern parameter names. -/
def identFnA : RsFn :=
  { attrs := [], vis := .inherited,
    sig := { ident := "f",
             inputs := [.typed (.ident "x") "u8", .typed (.ident "ys") "u16"],
             output := some "u32" },
    body := "0" }

/-- See `identFnA`. -/
def identFnB : RsFn :=
  { attrs := [], vis := .inherited,
    sig := { ident := "g",
             inputs := [.typed (.ident "a") "u8", .typed (.ident "b") "u16"],
             output := some "u32" },
    body := "1" }

/-- Two functions identical except for the binding names inside a tuple
parameter pattern. -/
def tupleFnA : RsFn :=
  { attrs := [], vis := .inherited,
    sig := { ident := "f",
             inputs := [.typed (.tuple ["x", "y"]) "(u8 , u8)"],
             output := none },
    body := "0" }

/-- See `tupleFnA`. -/
def tupleFnB : RsFn :=
  { attrs := [], vis := .inherited,
    sig := { ident := "f",
             inputs := [.typed (.tuple ["a", "b"]) "(u8 , u8)"],
             output := none },
    body := "0" }

/-- A source text with a quote, a newline and braces. -/
def rawText0 : List Nat :=
  strBytes "fn a () \x7b \"x\n\" \x7d"

/-- A flat document whose `raw` field is `rawText0`. -/
def doc0 : Json :=
  .obj (.cons codeKey (.num 7)
    (.cons nameKey (.str (strBytes "Echo"))
      (.cons rawKey (.str rawText0) .nil)))

/-- A store path for round-trip fixtures. -/
def path0 : List String :=
  ["src", ".autogen", "wgse_command", "echo.json"]

/-- File content `\x7b"raw":0\x7d`: valid JSON whose `raw` field is a
number, hence not a base64 string. -/
def rawNumContent : List Nat :=
  strBytes "\x7b\"raw\":0\x7d"

/-- A store holding `rawNumContent` at `path0`. -/
def fsRawNum : Fs :=
  fsSet fsEmpty path0 rawNumContent

/-- A fragment document for a command named `Echo`, with its source text
base64-encoded as `set_json_payload` stores it. -/
def fragEchoJson : Json :=
  .obj (.cons codeKey (.num 1)
    (.cons nameKey (.str (strBytes "Echo"))
      (.cons rawKey (.str (b64Encode (strBytes (printFn (insertReceiver execFn0))))) .nil)))

/-- Path of the `Echo` fragment inside the walked directory. -/
def echoFragPath : List String :=
  ["src", ".autogen", "wgse_commands", "echo.json"]

/-- A fragment store holding only the `Echo` fragment. -/
def fsGenerate : Fs :=
  fsSet fsEmpty echoFragPath (serialize fragEchoJson)

/-- A walk of `fsGenerate`: one traversal error, the fragment file, and the
directory itself. -/
def entriesGen : List (Except Unit DirEntry) :=
  [.error (), .ok { path := echoFragPath, isFile := true },
   .ok { path := generateFragmentDir, isFile := false }]

/-- The target tagged union. -/
def enum0 : RsEnum :=
  { ident := "WgseCommand" }

/-- Declarations collected from `fsGenerate` (empty on failure). -/
def genDecls0 : List GenDecl :=
  match parse_command_files fsGenerate "WgseCommandExecute" entriesGen with
  | .ok (decls, _) => decls
  | _ => []

/-- Tags collected from `fsGenerate` (empty on failure). -/
def genTags0 : List String :=
  match parse_command_files fsGenerate "WgseCommandExecute" entriesGen with
  | .ok (_, tags) => tags
  | _ => []

/-! # Theorems -/

/-! ## Base64 round trip -/

theorem b64Char_ascii : ∀ n < 64, b64Char n ≤ 127 := by decide

theorem b64Unchar_b64Char : ∀ n < 64, b64Unchar (b64Char n) = some n := by decide

theorem b64Char_ne_pad : ∀ n < 64, b64Char n ≠ 61 := by decide

theorem b64_decode_encode : ∀ bs : List Nat, (∀ b ∈ bs, b ≤ 255) →
    b64Decode (b64Encode bs) = some bs
  | [], _ => rfl
  | [b1], h => by
    have hb1 : b1 ≤ 255 := h b1 (by simp)
    have h1 : b1 / 4 < 64 := by omega
    have h2 : b1 % 4 * 16 < 64 := by omega
    have e0 : b1 % 4 * 16 % 16 = 0 := by omega
    simp only [b64Encode, b64Decode, b64Unchar_b64Char _ h1, b64Unchar_b64Char _ h2]
    simp only [if_pos rfl, e0, and_true, true_and, if_true]
    simp only [Option.some.injEq, List.cons.injEq, and_true]
    omega
  | [b1, b2], h => by
    have hb1 : b1 ≤ 255 := h b1 (by simp)
    have hb2 : b2 ≤ 255 := h b2 (by simp)
    have h1 : b1 / 4 < 64 := by omega
    have h2 : b1 % 4 * 16 + b2 / 16 < 64 := by omega
    have h3 : b2 % 16 * 4 < 64 := by omega
    have hne : b64Char (b2 % 16 * 4) ≠ 61 := b64Char_ne_pad _ h3
    have e0 : b2 % 16 * 4 % 4 = 0 := by omega
    simp only [b64Encode, b64Decode, b64Unchar_b64Char _ h1, b64Unchar_b64Char _ h2,
      b64Unchar_b64Char _ h3]
    rw [if_neg hne]
    simp only [if_pos rfl, e0, and_true, true_and, if_true]
    simp only [Option.some.injEq, List.cons.injEq, and_true]
    omega
  | b1 :: b2 :: b3 :: rest, h => by
    have hb1 : b1 ≤ 255 := h b1 (by simp)
    have hb2 : b2 ≤ 255 := h b2 (by simp)
    have hb3 : b3 ≤ 255 := h b3 (by simp)
    have h1 : b1 / 4 < 64 := by omega
    have h2 : b1 % 4 * 16 + b2 / 16 < 64 := by omega
    have h3 : b2 % 16 * 4 + b3 / 64 < 64 := by omega
    have h4 : b3 % 64 < 64 := by omega
    have hne3 : b64Char (b2 % 16 * 4 + b3 / 64) ≠ 61 := b64Char_ne_pad _ h3
    have hne4 : b64Char (b3 % 64) ≠ 61 := b64Char_ne_pad _ h4
    have ih := b64_decode_encode rest (fun b hb => h b (by simp [hb]))
    show b64Decode (b64Char (b1 / 4) :: b64Char (b1 % 4 * 16 + b2 / 16) ::
      b64Char (b2 % 16 * 4 + b3 / 64) :: b64Char (b3 % 64) :: b64Encode rest) = _
    simp only [b64Decode, b64Unchar_b64Char _ h1, b64Unchar_b64Char _ h2,
      b64Unchar_b64Char _ h3, b64Unchar_b64Char _ h4]
    rw [if_neg hne3, if_neg hne4, ih]
    simp only [Option.some.injEq, List.cons.injEq, and_true]
    refine ⟨by omega, by omega, by omega⟩

theorem b64Encode_ascii : ∀ bs : List Nat, (∀ b ∈ bs, b ≤ 255) →
    ∀ c ∈ b64Encode bs, c ≤ 127
  | [], _ => by simp [b64Encode]
  | [b1], h => by
    have hb1 : b1 ≤ 255 := h b1 (by simp)
    intro c hc
    simp only [b64Encode, List.mem_cons] at hc
    rcases hc with rfl | rfl | rfl | rfl | hc
    · exact b64Char_ascii _ (by omega)
    · exact b64Char_ascii _ (by omega)
    · omega
    · omega
    · simp at hc
  | [b1, b2], h => by
    have hb1 : b1 ≤ 255 := h b1 (by simp)
    have hb2 : b2 ≤ 255 := h b2 (by simp)
    intro c hc
    simp only [b64Encode, List.mem_cons] at hc
    rcases hc with rfl | rfl | rfl | rfl | hc
    · exact b64Char_ascii _ (by omega)
    · exact b64Char_ascii _ (by omega)
    · exact b64Char_ascii _ (by omega)
    · omega
    · simp at hc
  | b1 :: b2 :: b3 :: rest, h => by
    have hb1 : b1 ≤ 255 := h b1 (by simp)
    have hb2 : b2 ≤ 255 := h b2 (by simp)
    have hb3 : b3 ≤ 255 := h b3 (by simp)
    intro c hc
    have ih := b64Encode_ascii rest (fun b hb => h b (by simp [hb]))
    simp only [b64Encode, List.mem_cons] at hc
    rcases hc with rfl | rfl | rfl | rfl | hc
    · exact b64Char_ascii _ (by omega)
    · exact b64Char_ascii _ (by omega)
    · exact b64Char_ascii _ (by omega)
    · exact b64Char_ascii _ (by omega)
    · exact ih c hc

/-! ## Decimal digits -/

theorem natDigitsF_lt_10 : ∀ fuel n d, d ∈ natDigitsF fuel n → d < 10
  | 0, n, d => by simp [natDigitsF]
  | fuel + 1, n, d => by
    by_cases hn : n = 0
    · simp [natDigitsF, hn]
    · simp only [natDigitsF, if_neg hn, List.mem_cons]
      rintro (rfl | h)
      · omega
      · exact natDigitsF_lt_10 fuel (n / 10) d h

theorem ofDigits_natDigitsF : ∀ fuel n, n ≤ fuel →
    Nat.ofDigits 10 (natDigitsF fuel n) = n
  | 0, n, h => by
    simp [natDigitsF, Nat.ofDigits]
    omega
  | fuel + 1, n, h => by
    by_cases hn : n = 0
    · simp [natDigitsF, hn, Nat.ofDigits]
    · have hd : n / 10 ≤ fuel := by
        have := Nat.div_lt_self (Nat.pos_of_ne_zero hn) (by norm_num : 1 < 10)
        omega
      have ih := ofDigits_natDigitsF fuel (n / 10) hd
      simp only [natDigitsF, if_neg hn, Nat.ofDigits_cons, ih]
      omega

theorem takeWhile_append_of_all {α} (p : α → Bool) : ∀ l1 l2 : List α,
    (∀ a ∈ l1, p a = true) → (l1 ++ l2).takeWhile p = l1 ++ l2.takeWhile p
  | [], l2, _ => rfl
  | a :: l1, l2, h => by
    simp only [List.cons_append, List.takeWhile_cons, h a (by simp), if_true,
      takeWhile_append_of_all p l1 l2 (fun b hb => h b (by simp [hb]))]

theorem dropWhile_append_of_all {α} (p : α → Bool) : ∀ l1 l2 : List α,
    (∀ a ∈ l1, p a = true) → (l1 ++ l2).dropWhile p = l2.dropWhile p
  | [], l2, _ => rfl
  | a :: l1, l2, h => by
    simp only [List.cons_append, List.dropWhile_cons, h a (by simp), if_true,
      dropWhile_append_of_all p l1 l2 (fun b hb => h b (by simp [hb]))]

theorem serNat_digits (n : Nat) : ∀ d ∈ serNat n, isDigitByte d = true := by
  intro d hd
  unfold serNat at hd
  by_cases hn : n = 0
  · simp [hn] at hd
    simp [hd, isDigitByte]
  · simp only [if_neg hn, List.mem_map, List.mem_reverse] at hd
    obtain ⟨d0, hd0, rfl⟩ := hd
    have := natDigitsF_lt_10 n n d0 hd0
    simp [isDigitByte]
    omega

theorem serNat_ne_nil (n : Nat) : serNat n ≠ [] := by
  unfold serNat
  by_cases hn : n = 0
  · simp [hn]
  · simp only [if_neg hn, ne_eq, List.map_eq_nil_iff, List.reverse_eq_nil_iff]
    unfold natDigits
    obtain ⟨m, rfl⟩ := Nat.exists_eq_succ_of_ne_zero hn
    simp [natDigitsF, hn]

theorem parseNum_serNat (n : Nat) (rest : List Nat) (h : headNotDigit rest = true) :
    parseNum (serNat n ++ rest) = some (.num n, rest) := by
  have hall := serNat_digits n
  have hrestTW : rest.takeWhile isDigitByte = [] := by
    cases rest with
    | nil => rfl
    | cons b tl =>
      simp only [headNotDigit, Bool.not_eq_true'] at h
      simp [List.takeWhile_cons, h]
  have hrestDW : rest.dropWhile isDigitByte = rest := by
    cases rest with
    | nil => rfl
    | cons b tl =>
      simp only [headNotDigit, Bool.not_eq_true'] at h
      simp [List.dropWhile_cons, h]
  have htk : (serNat n ++ rest).takeWhile isDigitByte = serNat n := by
    rw [takeWhile_append_of_all _ _ _ hall, hrestTW, List.append_nil]
  have hdp : (serNat n ++ rest).dropWhile isDigitByte = rest := by
    rw [dropWhile_append_of_all _ _ _ hall, hrestDW]
  unfold parseNum
  rw [htk, hdp]
  simp only [serNat_ne_nil n, if_neg, if_false, Option.some.injEq, Prod.mk.injEq,
    and_true, Json.num.injEq]
  unfold serNat
  by_cases hn : n = 0
  · simp [hn, Nat.ofDigits]
  · simp only [if_neg hn, List.map_map]
    have : ((fun d => d - 48) ∘ fun d => d + 48) = id := by
      funext d
      simp
    rw [this, List.map_id, List.reverse_reverse]
    exact ofDigits_natDigitsF n n le_rfl

/-! ## String escaping round trip -/

theorem unhex_hexDig : ∀ n < 16, unhex (hexDig n) = some n := by decide

theorem parseStrBody_esc : ∀ s : List Nat, (∀ b ∈ s, b ≤ 255) →
    ∀ rest, parseStrBody (escBytes s ++ 34 :: rest) = some (s, rest)
  | [], _, rest => by
    show parseStrBody (escBytes [] ++ 34 :: rest) = some ([], rest)
    rw [show escBytes [] ++ 34 :: rest = 34 :: rest from by simp [escBytes]]
    rw [parseStrBody.eq_def]
    simp
  | b :: s, h, rest => by
    have hb : b ≤ 255 := h b (by simp)
    have ih := parseStrBody_esc s (fun x hx => h x (by simp [hx])) rest
    by_cases h34 : b = 34
    · subst h34
      rw [show escBytes (34 :: s) ++ 34 :: rest =
          92 :: 34 :: (escBytes s ++ 34 :: rest) from by simp [escBytes, escByte]]
      rw [parseStrBody.eq_def]
      simp [ih]
    by_cases h92 : b = 92
    · subst h92
      rw [show escBytes (92 :: s) ++ 34 :: rest =
          92 :: 92 :: (escBytes s ++ 34 :: rest) from by simp [escBytes, escByte]]
      rw [parseStrBody.eq_def]
      simp [ih]
    by_cases h8 : b = 8
    · subst h8
      rw [show escBytes (8 :: s) ++ 34 :: rest =
          92 :: 98 :: (escBytes s ++ 34 :: rest) from by simp [escBytes, escByte]]
      rw [parseStrBody.eq_def]
      simp [ih]
    by_cases h9 : b = 9
    · subst h9
      rw [show escBytes (9 :: s) ++ 34 :: rest =
          92 :: 116 :: (escBytes s ++ 34 :: rest) from by simp [escBytes, escByte]]
      rw [parseStrBody.eq_def]
      simp [ih]
    by_cases h10 : b = 10
    · subst h10
      rw [show escBytes (10 :: s) ++ 34 :: rest =
          92 :: 110 :: (escBytes s ++ 34 :: rest) from by simp [escBytes, escByte]]
      rw [parseStrBody.eq_def]
      simp [ih]
    by_cases h12 : b = 12
    · subst h12
      rw [show escBytes (12 :: s) ++ 34 :: rest =
          92 :: 102 :: (escBytes s ++ 34 :: rest) from by simp [escBytes, escByte]]
      rw [parseStrBody.eq_def]
      simp [ih]
    by_cases h13 : b = 13
    · subst h13
      rw [show escBytes (13 :: s) ++ 34 :: rest =
          92 :: 114 :: (escBytes s ++ 34 :: rest) from by simp [escBytes, escByte]]
      rw [parseStrBody.eq_def]
      simp [ih]
    by_cases hctl : b ≤ 31
    · have hd1 : b / 16 < 16 := by omega
      have hd2 : b % 16 < 16 := by omega
      rw [show escBytes (b :: s) ++ 34 :: rest =
          92 :: 117 :: 48 :: 48 :: hexDig (b / 16) :: hexDig (b % 16) ::
            (escBytes s ++ 34 :: rest) from by
        simp [escBytes, escByte, if_neg h34, if_neg h92, if_neg h8, if_neg h9,
          if_neg h10, if_neg h12, if_neg h13, if_pos hctl]]
      rw [parseStrBody.eq_def]
      norm_num
      rw [unhex_hexDig _ hd1, unhex_hexDig _ hd2]
      simp [utf8EncodeCp, ih, Nat.div_add_mod,
        (show unhex 48 = some 0 from rfl),
        (show ¬(55296 ≤ b ∧ b ≤ 57343) from by omega),
        (show b ≤ 127 from by omega)]
      constructor
      · omega
      · rw [show b / 16 * 16 + b % 16 = b from by omega]
        simp [show b ≤ 127 from by omega]
    · rw [show escBytes (b :: s) ++ 34 :: rest = b :: (escBytes s ++ 34 :: rest) from by
        simp [escBytes, escByte, if_neg h34, if_neg h92, if_neg h8, if_neg h9,
          if_neg h10, if_neg h12, if_neg h13, if_neg hctl]]
      rw [parseStrBody.eq_def]
      simp [if_neg h34, if_neg h92, if_neg hctl, ih]

/-! ## Parsing back serialized scalars, members and flat documents -/

theorem dropWs_cons (b : Nat) (l : List Nat) :
    dropWs (b :: l) = if isWsByte b then dropWs l else b :: l := by
  simp [dropWs, List.dropWhile_cons]

theorem numTail_close (v : Json) (b : Nat)
    (hb : isDigitByte b = false) (rest : List Nat) : numTail v (b :: rest) = true := by
  cases v <;> simp [numTail, headNotDigit, hb]

theorem parseValue_scalar (v : Json) (hv : scalarOk v = true)
    (fuel : Nat) (rest : List Nat) (ht : numTail v rest = true) :
    parseValue (fuel + 1) (serialize v ++ rest) = some (v, rest) := by
  cases v with
  | null =>
    rw [show serialize Json.null ++ rest = 110 :: 117 :: 108 :: 108 :: rest from by
      simp [serialize]]
    rw [parseValue.eq_def]
    simp [dropWs_cons, isWsByte]
  | bool b =>
    cases b
    · rw [show serialize (Json.bool false) ++ rest = 102 :: 97 :: 108 :: 115 :: 101 :: rest from by
        simp [serialize]]
      rw [parseValue.eq_def]
      simp [dropWs_cons, isWsByte]
    · rw [show serialize (Json.bool true) ++ rest = 116 :: 114 :: 117 :: 101 :: rest from by
        simp [serialize]]
      rw [parseValue.eq_def]
      simp [dropWs_cons, isWsByte]
  | num n =>
    obtain ⟨d, ds, hser⟩ : ∃ d ds, serNat n = d :: ds := by
      cases hs : serNat n with
      | nil => exact absurd hs (serNat_ne_nil n)
      | cons d ds => exact ⟨d, ds, rfl⟩
    have hd : isDigitByte d = true := serNat_digits n d (by rw [hser]; simp)
    have hd' : 48 ≤ d ∧ d ≤ 57 := by simpa [isDigitByte] using hd
    have hnum : parseNum (serNat n ++ rest) = some (.num n, rest) :=
      parseNum_serNat n rest (by simpa [numTail] using ht)
    have hwsd : isWsByte d = false := by simp [isWsByte]; omega
    rw [show serialize (Json.num n) ++ rest = d :: (ds ++ rest) from by
      simp [serialize, hser]]
    rw [parseValue.eq_def]
    simp only [dropWs_cons, hwsd, Bool.false_eq_true, if_false, hd,
      (show d ≠ 110 from by omega), (show d ≠ 116 from by omega),
      (show d ≠ 102 from by omega), (show d ≠ 34 from by omega),
      (show d ≠ 91 from by omega), (show d ≠ 123 from by omega),
      if_neg, ite_false, if_true, reduceIte]
    rw [← List.cons_append, ← hser, hnum]
  | str s =>
    have hall : ∀ b ∈ s, b ≤ 255 := by
      simp only [scalarOk, okBytes, Bool.and_eq_true, List.all_eq_true,
        decide_eq_true_eq] at hv
      exact hv.1
    have hstr := parseStrBody_esc s hall rest
    rw [show serialize (Json.str s) ++ rest = 34 :: (escBytes s ++ 34 :: rest) from by
      simp [serialize, serStr]]
    rw [parseValue.eq_def]
    simp [dropWs_cons, isWsByte, hstr]
  | arr xs => simp [scalarOk] at hv
  | obj fs => simp [scalarOk] at hv

theorem parseMembers_serFields : ∀ (k : List Nat) (v : Json) (tl : JsonFields),
    flatFields (.cons k v tl) = true →
    ∀ (fuel : Nat) (rest : List Nat),
    parseMembers (2 * lenFields (.cons k v tl) + fuel)
        (serFields (.cons k v tl) ++ 125 :: rest) =
      some (.cons k v tl, rest)
  | k, v, .nil, h, fuel, rest => by
    have hk : okBytes k = true ∧ scalarOk v = true := by
      simpa [flatFields, Bool.and_eq_true] using h
    have hkb : ∀ b ∈ k, b ≤ 255 := by
      have := hk.1
      simp only [okBytes, Bool.and_eq_true, List.all_eq_true, decide_eq_true_eq] at this
      exact this.1
    have hstr := parseStrBody_esc k hkb (58 :: (serialize v ++ 125 :: rest))
    have hval := parseValue_scalar v hk.2 fuel (125 :: rest)
      (numTail_close v 125 (by simp [isDigitByte]) rest)
    rw [show 2 * lenFields (JsonFields.cons k v JsonFields.nil) + fuel = (fuel + 1) + 1 from by
      simp [lenFields]; omega]
    rw [show serFields (JsonFields.cons k v JsonFields.nil) ++ 125 :: rest =
        34 :: (escBytes k ++ 34 :: (58 :: (serialize v ++ 125 :: rest))) from by
      simp [serFields, serStr]]
    rw [parseMembers.eq_def]
    simp [dropWs_cons, isWsByte, hstr, hval]
  | k, v, .cons k2 v2 tl2, h, fuel, rest => by
    have hk : okBytes k = true ∧ scalarOk v = true ∧ flatFields (.cons k2 v2 tl2) = true := by
      simpa [flatFields, Bool.and_eq_true, and_assoc] using h
    have hkb : ∀ b ∈ k, b ≤ 255 := by
      have := hk.1
      simp only [okBytes, Bool.and_eq_true, List.all_eq_true, decide_eq_true_eq] at this
      exact this.1
    have hstr := parseStrBody_esc k hkb
      (58 :: (serialize v ++ 44 :: (serFields (JsonFields.cons k2 v2 tl2) ++ 125 :: rest)))
    have hval := parseValue_scalar v hk.2.1 (2 * lenFields (JsonFields.cons k2 v2 tl2) + fuel)
      (44 :: (serFields (JsonFields.cons k2 v2 tl2) ++ 125 :: rest))
      (numTail_close v 44 (by simp [isDigitByte]) _)
    rw [show 2 * lenFields (JsonFields.cons k v (JsonFields.cons k2 v2 tl2)) + fuel =
        ((2 * lenFields (JsonFields.cons k2 v2 tl2) + fuel) + 1) + 1 from by
      simp [lenFields]; omega]
    rw [show serFields (JsonFields.cons k v (JsonFields.cons k2 v2 tl2)) ++ 125 :: rest =
        34 :: (escBytes k ++ 34 :: (58 :: (serialize v ++ 44 ::
          (serFields (JsonFields.cons k2 v2 tl2) ++ 125 :: rest)))) from by
      simp [serFields, serStr]]
    rw [parseMembers.eq_def]
    simp [dropWs_cons, isWsByte, hstr, hval]
    rw [show 2 * lenFields (JsonFields.cons k2 v2 tl2) + fuel + 1 =
        2 * lenFields (JsonFields.cons k2 v2 tl2) + (fuel + 1) from by omega]
    exact parseMembers_serFields k2 v2 tl2 hk.2.2 (fuel + 1) rest

theorem serialize_scalar_len (v : Json) (hv : scalarOk v = true) :
    1 ≤ (serialize v).length := by
  cases v with
  | null => simp [serialize]
  | bool b => cases b <;> simp [serialize]
  | num n =>
    have := serNat_ne_nil n
    show 1 ≤ (serNat n).length
    cases hs : serNat n with
    | nil => exact absurd hs this
    | cons d ds => simp
  | str s => simp [serialize, serStr]
  | arr xs => simp [scalarOk] at hv
  | obj fs => simp [scalarOk] at hv

theorem serFields_len : ∀ fsj : JsonFields, flatFields fsj = true →
    2 * lenFields fsj ≤ (serFields fsj).length
  | .nil, _ => by simp [lenFields, serFields]
  | .cons k v .nil, h => by
    have hk : scalarOk v = true := by
      simp only [flatFields, Bool.and_eq_true] at h
      exact h.1.2
    have := serialize_scalar_len v hk
    simp [lenFields, serFields, serStr, List.length_append]
    omega
  | .cons k v (.cons k2 v2 tl2), h => by
    have hk : scalarOk v = true ∧ flatFields (.cons k2 v2 tl2) = true := by
      simp only [flatFields, Bool.and_eq_true] at h
      refine ⟨h.1.2, ?_⟩
      simp only [flatFields, Bool.and_eq_true]
      exact h.2
    have h1 := serialize_scalar_len v hk.1
    have h2 := serFields_len (.cons k2 v2 tl2) hk.2
    simp only [lenFields, serFields, serStr, List.length_append, List.length_cons] at *
    omega

theorem serFields_cons_head (k : List Nat) (v : Json) (tl : JsonFields) :
    ∃ X, serFields (.cons k v tl) = 34 :: X := by
  cases tl with
  | nil => exact ⟨escBytes k ++ 34 :: 58 :: serialize v, by simp [serFields, serStr]⟩
  | cons k2 v2 tl2 =>
    exact ⟨escBytes k ++ 34 :: 58 :: (serialize v ++ 44 :: serFields (.cons k2 v2 tl2)),
      by simp [serFields, serStr]⟩

theorem fromStr_serialize_flat (doc : Json) (h : flatDocOk doc = true) :
    fromStr (serialize doc) = some doc := by
  cases doc with
  | obj fsj =>
    cases fsj with
    | nil => rfl
    | cons k v tl =>
      have hff : flatFields (.cons k v tl) = true := by
        simp only [flatDocOk, Bool.and_eq_true] at h
        exact h.1
      have hlen := serFields_len _ hff
      obtain ⟨X, hX⟩ := serFields_cons_head k v tl
      obtain ⟨f, hf⟩ : ∃ f, (serFields (JsonFields.cons k v tl)).length + 2 =
          2 * lenFields (JsonFields.cons k v tl) + f :=
        ⟨(serFields (JsonFields.cons k v tl)).length + 2 -
          2 * lenFields (JsonFields.cons k v tl), by omega⟩
      have hpm := parseMembers_serFields k v tl hff f []
      unfold fromStr
      rw [show serialize (Json.obj (JsonFields.cons k v tl)) =
          123 :: (serFields (JsonFields.cons k v tl) ++ [125]) from by simp [serialize]]
      rw [show (123 :: (serFields (JsonFields.cons k v tl) ++ [125])).length + 1 =
          ((serFields (JsonFields.cons k v tl)).length + 2) + 1 from by simp]
      rw [parseValue.eq_def]
      rw [hX]
      simp [dropWs_cons, isWsByte]
      rw [show X.length + 1 + 2 = 2 * lenFields (JsonFields.cons k v tl) + f from by
        rw [hX] at hf
        simpa using hf]
      rw [show (34 : Nat) :: (X ++ [125]) = serFields (JsonFields.cons k v tl) ++ [125] from by
        rw [hX]
        simp]
      rw [hpm]
      simp [dropWs]
  | null => simp [flatDocOk] at h
  | bool b => simp [flatDocOk] at h
  | num n => simp [flatDocOk] at h
  | str s => simp [flatDocOk] at h
  | arr xs => simp [flatDocOk] at h


/-! ## UTF-8 validity of written content -/

theorem ascii_isValidUtf8 : ∀ l : List Nat, (∀ b ∈ l, b ≤ 127) → isValidUtf8 l = true
  | [], _ => rfl
  | b :: l, h => by
    rw [isValidUtf8.eq_def]
    simp only [if_pos (h b (by simp))]
    exact ascii_isValidUtf8 l (fun x hx => h x (by simp [hx]))

theorem isValidUtf8_append : ∀ (a b : List Nat), isValidUtf8 a = true →
    isValidUtf8 b = true → isValidUtf8 (a ++ b) = true
  | [], b, _, hb => by simpa using hb
  | [b1], b, ha, hb => by
    rw [isValidUtf8.eq_def] at ha
    rw [List.cons_append, isValidUtf8.eq_def]
    by_cases h1 : b1 ≤ 127
    · simp only [if_pos h1] at ha ⊢
      exact isValidUtf8_append [] b ha hb
    · simp [if_neg h1, validTail1, validTail2, validTail3] at ha
  | b1 :: b2 :: rest, b, ha, hb => by
    rw [isValidUtf8.eq_def] at ha
    rw [List.cons_append, isValidUtf8.eq_def]
    by_cases h1 : b1 ≤ 127
    · simp only [if_pos h1] at ha ⊢
      exact isValidUtf8_append (b2 :: rest) b ha hb
    by_cases h2 : (194 ≤ b1 && b1 ≤ 223) = true
    · simp only [if_neg h1, if_pos h2] at ha ⊢
      rw [validTail1.eq_def] at ha
      rw [List.cons_append, validTail1.eq_def]
      simp only [Bool.and_eq_true] at ha ⊢
      exact ⟨ha.1, isValidUtf8_append rest b ha.2 hb⟩
    by_cases h3 : (224 ≤ b1 && b1 ≤ 239) = true
    · simp only [if_neg h1, if_neg h2, if_pos h3] at ha ⊢
      rw [validTail2.eq_def] at ha
      rw [List.cons_append, validTail2.eq_def]
      simp only [Bool.and_eq_true] at ha ⊢
      refine ⟨ha.1, ?_⟩
      have ha2 := ha.2
      cases rest with
      | nil => simp [validTail1] at ha2
      | cons b3 r3 =>
        rw [validTail1.eq_def] at ha2
        rw [List.cons_append, validTail1.eq_def]
        simp only [Bool.and_eq_true] at ha2 ⊢
        exact ⟨ha2.1, isValidUtf8_append r3 b ha2.2 hb⟩
    by_cases h4 : (240 ≤ b1 && b1 ≤ 244) = true
    · simp only [if_neg h1, if_neg h2, if_neg h3, if_pos h4] at ha ⊢
      rw [validTail3.eq_def] at ha
      rw [List.cons_append, validTail3.eq_def]
      simp only [Bool.and_eq_true] at ha ⊢
      refine ⟨ha.1, ?_⟩
      have ha2 := ha.2
      cases rest with
      | nil => simp [contPair] at ha2
      | cons b3 r3 =>
        rw [contPair.eq_def] at ha2
        rw [List.cons_append, contPair.eq_def]
        simp only [Bool.and_eq_true] at ha2 ⊢
        refine ⟨ha2.1, ?_⟩
        have ha3 := ha2.2
        cases r3 with
        | nil => simp [validTail1] at ha3
        | cons b4 r4 =>
          rw [validTail1.eq_def] at ha3
          rw [List.cons_append, validTail1.eq_def]
          simp only [Bool.and_eq_true] at ha3 ⊢
          exact ⟨ha3.1, isValidUtf8_append r4 b ha3.2 hb⟩
    · simp only [if_neg h1, if_neg h2, if_neg h3, if_neg h4] at ha
      simp at ha


theorem escByte_ascii : ∀ b ≤ 127, ∀ c ∈ escByte b, c ≤ 127 := by decide

theorem escByte_high (b : Nat) (h : 128 ≤ b) : escByte b = [b] := by
  unfold escByte
  repeat rw [if_neg (by omega)]

theorem escBytes_append : ∀ a b : List Nat, escBytes (a ++ b) = escBytes a ++ escBytes b
  | [], b => rfl
  | x :: a, b => by
    show escByte x ++ escBytes (a ++ b) = (escByte x ++ escBytes a) ++ escBytes b
    rw [escBytes_append a b, List.append_assoc]

theorem escBytes_valid : ∀ s : List Nat, isValidUtf8 s = true →
    isValidUtf8 (escBytes s) = true
  | [], _ => rfl
  | b1 :: rest, h => by
    rw [isValidUtf8.eq_def] at h
    by_cases h1 : b1 ≤ 127
    · simp only [if_pos h1] at h
      show isValidUtf8 (escByte b1 ++ escBytes rest) = true
      exact isValidUtf8_append _ _
        (ascii_isValidUtf8 _ (escByte_ascii b1 h1))
        (escBytes_valid rest h)
    by_cases h2 : (194 ≤ b1 && b1 ≤ 223) = true
    · simp only [if_neg h1, if_pos h2] at h
      cases rest with
      | nil => simp [validTail1] at h
      | cons b2 r2 =>
        rw [validTail1.eq_def] at h
        simp only [Bool.and_eq_true] at h
        have hc2 : 128 ≤ b2 := by
          have := h.1
          simp [isCont] at this
          omega
        show isValidUtf8 (escByte b1 ++ (escByte b2 ++ escBytes r2)) = true
        rw [escByte_high b1 (by simp at h2; omega), escByte_high b2 hc2]
        rw [show ([b1] : List Nat) ++ ([b2] ++ escBytes r2) = b1 :: b2 :: escBytes r2 from by simp]
        rw [isValidUtf8.eq_def]
        simp only [if_neg h1, if_pos h2]
        rw [validTail1.eq_def]
        simp only [Bool.and_eq_true]
        exact ⟨h.1, escBytes_valid r2 h.2⟩
    by_cases h3 : (224 ≤ b1 && b1 ≤ 239) = true
    · simp only [if_neg h1, if_neg h2, if_pos h3] at h
      cases rest with
      | nil => simp [validTail2] at h
      | cons b2 r =>
        rw [validTail2.eq_def] at h
        simp only [Bool.and_eq_true] at h
        cases r with
        | nil => simp [validTail1] at h
        | cons b3 r3 =>
          rw [validTail1.eq_def] at h
          simp only [Bool.and_eq_true] at h
          have hc2 : 128 ≤ b2 := by
            have h21 := h.1
            unfold okSecond3 at h21
            by_cases e0 : b1 = 224
            · rw [if_pos e0] at h21
              simp at h21
              omega
            by_cases ed : b1 = 237
            · rw [if_neg e0, if_pos ed] at h21
              simp at h21
              omega
            · rw [if_neg e0, if_neg ed] at h21
              simp [isCont] at h21
              omega
          have hc3 : 128 ≤ b3 := by
            have := h.2.1
            simp [isCont] at this
            omega
          show isValidUtf8 (escByte b1 ++ (escByte b2 ++ (escByte b3 ++ escBytes r3))) = true
          rw [escByte_high b1 (by simp at h3; omega), escByte_high b2 hc2, escByte_high b3 hc3]
          rw [show ([b1] : List Nat) ++ ([b2] ++ ([b3] ++ escBytes r3)) =
            b1 :: b2 :: b3 :: escBytes r3 from by simp]
          rw [isValidUtf8.eq_def]
          simp only [if_neg h1, if_neg h2, if_pos h3]
          rw [validTail2.eq_def]
          simp only [Bool.and_eq_true]
          refine ⟨h.1, ?_⟩
          rw [validTail1.eq_def]
          simp only [Bool.and_eq_true]
          exact ⟨h.2.1, escBytes_valid r3 h.2.2⟩
    by_cases h4 : (240 ≤ b1 && b1 ≤ 244) = true
    · simp only [if_neg h1, if_neg h2, if_neg h3, if_pos h4] at h
      cases rest with
      | nil => simp [validTail3] at h
      | cons b2 r =>
        rw [validTail3.eq_def] at h
        simp only [Bool.and_eq_true] at h
        cases r with
        | nil => simp [contPair] at h
        | cons b3 r2 =>
          rw [contPair.eq_def] at h
          simp only [Bool.and_eq_true] at h
          cases r2 with
          | nil => simp [validTail1] at h
          | cons b4 r4 =>
            rw [validTail1.eq_def] at h
            simp only [Bool.and_eq_true] at h
            have hc2 : 128 ≤ b2 := by
              have h21 := h.1
              unfold okSecond4 at h21
              by_cases e0 : b1 = 240
              · rw [if_pos e0] at h21
                simp at h21
                omega
              by_cases ed : b1 = 244
              · rw [if_neg e0, if_pos ed] at h21
                simp at h21
                omega
              · rw [if_neg e0, if_neg ed] at h21
                simp [isCont] at h21
                omega
            have hc3 : 128 ≤ b3 := by
              have := h.2.1
              simp [isCont] at this
              omega
            have hc4 : 128 ≤ b4 := by
              have := h.2.2.1
              simp [isCont] at this
              omega
            show isValidUtf8 (escByte b1 ++ (escByte b2 ++ (escByte b3 ++
              (escByte b4 ++ escBytes r4)))) = true
            rw [escByte_high b1 (by simp at h4; omega), escByte_high b2 hc2,
              escByte_high b3 hc3, escByte_high b4 hc4]
            rw [show ([b1] : List Nat) ++ ([b2] ++ ([b3] ++ ([b4] ++ escBytes r4))) =
              b1 :: b2 :: b3 :: b4 :: escBytes r4 from by simp]
            rw [isValidUtf8.eq_def]
            simp only [if_neg h1, if_neg h2, if_neg h3, if_pos h4]
            rw [validTail3.eq_def]
            simp only [Bool.and_eq_true]
            refine ⟨h.1, ?_⟩
            rw [contPair.eq_def]
            simp only [Bool.and_eq_true]
            refine ⟨h.2.1, ?_⟩
            rw [validTail1.eq_def]
            simp only [Bool.and_eq_true]
            exact ⟨h.2.2.1, escBytes_valid r4 h.2.2.2⟩
    · simp only [if_neg h1, if_neg h2, if_neg h3, if_neg h4] at h
      simp at h


theorem okBytes_dest (s : List Nat) (h : okBytes s = true) :
    (∀ b ∈ s, b ≤ 255) ∧ isValidUtf8 s = true := by
  simp only [okBytes, Bool.and_eq_true, List.all_eq_true, decide_eq_true_eq] at h
  exact h

theorem serStr_valid (s : List Nat) (h : okBytes s = true) :
    isValidUtf8 (serStr s) = true := by
  have hv := (okBytes_dest s h).2
  show isValidUtf8 (34 :: (escBytes s ++ [34])) = true
  rw [show (34 : Nat) :: (escBytes s ++ [34]) = [34] ++ (escBytes s ++ [34]) from by simp]
  refine isValidUtf8_append _ _ (by rfl) (isValidUtf8_append _ _ (escBytes_valid s hv) (by rfl))

theorem serNat_valid (n : Nat) : isValidUtf8 (serNat n) = true := by
  refine ascii_isValidUtf8 _ (fun d hd => ?_)
  have := serNat_digits n d hd
  simp [isDigitByte] at this
  omega

theorem serialize_scalar_valid (v : Json) (hv : scalarOk v = true) :
    isValidUtf8 (serialize v) = true := by
  cases v with
  | null => rfl
  | bool b => cases b <;> rfl
  | num n => exact serNat_valid n
  | str s => exact serStr_valid s (by simpa [scalarOk] using hv)
  | arr xs => simp [scalarOk] at hv
  | obj fs => simp [scalarOk] at hv

theorem serFields_valid : ∀ fsj : JsonFields, flatFields fsj = true →
    isValidUtf8 (serFields fsj) = true
  | .nil, _ => rfl
  | .cons k v .nil, h => by
    have hh : okBytes k = true ∧ scalarOk v = true := by
      simp only [flatFields, Bool.and_eq_true] at h
      exact h.1
    show isValidUtf8 (serStr k ++ 58 :: serialize v) = true
    rw [show (58 : Nat) :: serialize v = [58] ++ serialize v from by simp]
    exact isValidUtf8_append _ _ (serStr_valid k hh.1)
      (isValidUtf8_append _ _ (by rfl) (serialize_scalar_valid v hh.2))
  | .cons k v (.cons k2 v2 tl2), h => by
    have hh : (okBytes k = true ∧ scalarOk v = true) ∧
        flatFields (JsonFields.cons k2 v2 tl2) = true := by
      simp only [flatFields, Bool.and_eq_true] at h ⊢
      exact h
    rw [show serFields (JsonFields.cons k v (JsonFields.cons k2 v2 tl2)) =
      serStr k ++ ([58] ++ (serialize v ++ ([44] ++
        serFields (JsonFields.cons k2 v2 tl2)))) from by simp [serFields]]
    refine isValidUtf8_append _ _ (serStr_valid k hh.1.1) ?_
    refine isValidUtf8_append _ _ (by rfl) ?_
    refine isValidUtf8_append _ _ (serialize_scalar_valid v hh.1.2) ?_
    refine isValidUtf8_append _ _ (by rfl) ?_
    exact serFields_valid (JsonFields.cons k2 v2 tl2) hh.2

theorem serialize_flat_valid (doc : Json) (h : flatDocOk doc = true) :
    isValidUtf8 (serialize doc) = true := by
  cases doc with
  | obj fsj =>
    have hff : flatFields fsj = true := by
      simp only [flatDocOk, Bool.and_eq_true] at h
      exact h.1
    show isValidUtf8 (123 :: (serFields fsj ++ [125])) = true
    rw [show (123 : Nat) :: (serFields fsj ++ [125]) =
      [123] ++ (serFields fsj ++ [125]) from by simp]
    refine isValidUtf8_append _ _ (by rfl) ?_
    exact isValidUtf8_append _ _ (serFields_valid fsj hff) (by rfl)
  | null => simp [flatDocOk] at h
  | bool b => simp [flatDocOk] at h
  | num n => simp [flatDocOk] at h
  | str s => simp [flatDocOk] at h
  | arr xs => simp [flatDocOk] at h


/-! ## Store lemmas and claim C3 -/

theorem fsGet_fsSet (fs : Fs) (p : List String) (c : List Nat) :
    fsGet (fsSet fs p c) p = some c := by
  simp [fsGet, fsSet]

theorem fieldsLookup_fieldsSet : ∀ (fsj : JsonFields) (key : List Nat) (v : Json),
    fieldsLookup (fieldsSet fsj key v) key = some v
  | .nil, key, v => by simp [fieldsSet, fieldsLookup]
  | .cons k w tl, key, v => by
    by_cases hk : key = k
    · simp [fieldsSet, fieldsLookup, hk]
    · simp only [fieldsSet, if_neg hk, fieldsLookup, if_neg hk]
      exact fieldsLookup_fieldsSet tl key v

theorem flat_lookup_str_ok : ∀ (fsj : JsonFields) (key t : List Nat),
    flatFields fsj = true → fieldsLookup fsj key = some (.str t) → okBytes t = true
  | .nil, key, t, _, hl => by simp [fieldsLookup] at hl
  | .cons k w tl, key, t, hf, hl => by
    have hh : (okBytes k = true ∧ scalarOk w = true) ∧ flatFields tl = true := by
      simpa only [flatFields, Bool.and_eq_true] using hf
    by_cases hk : key = k
    · rw [fieldsLookup, if_pos hk] at hl
      have : w = Json.str t := by injection hl
      subst this
      simpa [scalarOk] using hh.1.2
    · rw [fieldsLookup, if_neg hk] at hl
      exact flat_lookup_str_ok tl key t hh.2 hl

theorem flatFields_fieldsSet : ∀ (fsj : JsonFields) (key : List Nat) (v : Json),
    flatFields fsj = true → okBytes key = true → scalarOk v = true →
    flatFields (fieldsSet fsj key v) = true
  | .nil, key, v, _, hkey, hv => by
    simp [fieldsSet, flatFields, hkey, hv]
  | .cons k w tl, key, v, hf, hkey, hv => by
    have hh : (okBytes k = true ∧ scalarOk w = true) ∧ flatFields tl = true := by
      simpa only [flatFields, Bool.and_eq_true] using hf
    by_cases hk : key = k
    · simp only [fieldsSet, if_pos hk, flatFields, Bool.and_eq_true]
      exact ⟨⟨hh.1.1, hv⟩, hh.2⟩
    · simp only [fieldsSet, if_neg hk, flatFields, Bool.and_eq_true]
      exact ⟨hh.1, flatFields_fieldsSet tl key v hh.2 hkey hv⟩

theorem keysOf_fieldsSet : ∀ (fsj : JsonFields) (key : List Nat) (w v : Json),
    fieldsLookup fsj key = some w → keysOf (fieldsSet fsj key v) = keysOf fsj
  | .nil, key, w, v, hl => by simp [fieldsLookup] at hl
  | .cons k w0 tl, key, w, v, hl => by
    by_cases hk : key = k
    · simp [fieldsSet, if_pos hk, keysOf]
    · rw [fieldsLookup, if_neg hk] at hl
      simp only [fieldsSet, if_neg hk, keysOf]
      rw [keysOf_fieldsSet tl key w v hl]

theorem keysNodup_fieldsSet : ∀ (fsj : JsonFields) (key : List Nat) (w v : Json),
    fieldsLookup fsj key = some w → keysNodup fsj = true →
    keysNodup (fieldsSet fsj key v) = true
  | .nil, key, w, v, hl, _ => by simp [fieldsLookup] at hl
  | .cons k w0 tl, key, w, v, hl, hn => by
    have hh : (!(keysOf tl).contains k) = true ∧ keysNodup tl = true := by
      simpa only [keysNodup, Bool.and_eq_true] using hn
    by_cases hk : key = k
    · simp only [fieldsSet, if_pos hk, keysNodup, Bool.and_eq_true]
      exact hh
    · rw [fieldsLookup, if_neg hk] at hl
      simp only [fieldsSet, if_neg hk, keysNodup, Bool.and_eq_true]
      rw [keysOf_fieldsSet tl key w v hl]
      exact ⟨hh.1, keysNodup_fieldsSet tl key w v hl hh.2⟩

theorem b64Encode_okBytes (t : List Nat) (h : ∀ b ∈ t, b ≤ 255) :
    okBytes (b64Encode t) = true := by
  have hascii := b64Encode_ascii t h
  simp only [okBytes, Bool.and_eq_true, List.all_eq_true, decide_eq_true_eq]
  exact ⟨fun b hb => by have := hascii b hb; omega,
    ascii_isValidUtf8 _ hascii⟩

/-- Claim C3 — confirmed.  For every text `t` (any Rust string content,
including braces, quotes and newlines) and every flat document whose `raw`
field is `t`, writing the document with `set_json_payload` and reading it
back with `get_json_payload` at the same path succeeds and yields a document
whose decoded `raw` field is byte-identical to `t`. -/
theorem c3_put_get_raw_roundtrip (fs : Fs) (path : List String) (doc : Json)
    (t : List Nat) (hdoc : flatDocOk doc = true)
    (hraw : jsonLookup doc rawKey = some (.str t)) :
    ∃ fs2 doc2, set_json_payload fs path doc = .ok fs2 ∧
      get_json_payload fs2 path = .ok doc2 ∧
      jsonLookup doc2 rawKey = some (.str t) := by
  obtain ⟨fsj, rfl⟩ : ∃ fsj, doc = .obj fsj := by
    cases doc with
    | obj fsj => exact ⟨fsj, rfl⟩
    | null => simp [jsonLookup] at hraw
    | bool b => simp [jsonLookup] at hraw
    | num n => simp [jsonLookup] at hraw
    | str s => simp [jsonLookup] at hraw
    | arr xs => simp [jsonLookup] at hraw
  have hflat : flatFields fsj = true ∧ keysNodup fsj = true := by
    simpa only [flatDocOk, Bool.and_eq_true] using hdoc
  have hlk : fieldsLookup fsj rawKey = some (.str t) := by
    simpa [jsonLookup] using hraw
  have ht : okBytes t = true := flat_lookup_str_ok fsj rawKey t hflat.1 hlk
  have htb : ∀ b ∈ t, b ≤ 255 := (okBytes_dest t ht).1
  have htv : isValidUtf8 t = true := (okBytes_dest t ht).2
  have hrawkeyOk : okBytes rawKey = true := by decide
  -- the written document
  have henc : okBytes (b64Encode t) = true := b64Encode_okBytes t htb
  have hdoc2flat : flatDocOk (jsonSet (Json.obj fsj) rawKey (.str (b64Encode t))) = true := by
    simp only [jsonSet, flatDocOk, Bool.and_eq_true]
    exact ⟨flatFields_fieldsSet fsj rawKey _ hflat.1 hrawkeyOk (by simpa [scalarOk] using henc),
      keysNodup_fieldsSet fsj rawKey _ _ hlk hflat.2⟩
  have hset : set_json_payload fs path (Json.obj fsj) =
      .ok (fsSet fs path (serialize (jsonSet (Json.obj fsj) rawKey (.str (b64Encode t))))) := by
    unfold set_json_payload
    rw [hraw]
  refine ⟨_, jsonSet (jsonSet (Json.obj fsj) rawKey (.str (b64Encode t))) rawKey (.str t),
    hset, ?_, ?_⟩
  · have h1 := fsGet_fsSet fs path
      (serialize (jsonSet (Json.obj fsj) rawKey (.str (b64Encode t))))
    have h2 := serialize_flat_valid _ hdoc2flat
    have h3 := fromStr_serialize_flat _ hdoc2flat
    have h4 : jsonLookup (jsonSet (Json.obj fsj) rawKey (.str (b64Encode t))) rawKey =
        some (.str (b64Encode t)) := by
      simp only [jsonSet, jsonLookup]
      exact fieldsLookup_fieldsSet fsj rawKey _
    have h5 := b64_decode_encode t htb
    simp only [get_json_payload, h1, h2, h3, h4, h5, htv, Bool.true_eq_false,
      if_false, if_true, reduceIte]
  · simp only [jsonSet, jsonLookup]
    exact fieldsLookup_fieldsSet _ rawKey _


/-! ## Claim C1: capture and generation directories -/

/-- Claim C1 — refuted on the code.  `wgse_command_impl` writes fragments
under `src/.autogen/wgse_command/` while `wgse_command_trait_impl` walks
`src/.autogen/wgse_commands/`: no capture output path lies under the walked
directory, for any command name. -/
theorem c1_capture_path_not_in_generate_walk :
    ∀ name : String, isUnderDir generateFragmentDir (captureFragmentPath name) = false := by
  intro name
  rfl

/-! ## Concrete claim evaluations (C2 and counterexamples) -/

/-- Witness for claim C3, at a concrete document whose source text holds a
quote, a newline and braces. -/
theorem c3_put_get_raw_roundtrip_witness :
    flatDocOk doc0 = true ∧ jsonLookup doc0 rawKey = some (.str rawText0) ∧
    (∃ fs2 doc2, set_json_payload fsEmpty path0 doc0 = .ok fs2 ∧
      get_json_payload fs2 path0 = .ok doc2 ∧
      jsonLookup doc2 rawKey = some (.str rawText0)) :=
  ⟨rfl, rfl, c3_put_get_raw_roundtrip fsEmpty path0 doc0 rawText0 rfl rfl⟩

/-- Claim C2 — refuted on the code (the claim states the intent; the code
has a slip).  With an Interface Capture Record holding exactly the canonical
(identifier-erased, receiver-injected) signature text of the command,
`check_function_interface` still fails with the `InterfaceMismatchError`,
because the compared function-side text is the constant
`funcSignatureText` (the unexpanded `quote!` of `func.sig.clone()`), which
differs from every canonical signature. -/
theorem c2_matching_shape_still_rejected :
    check_function_interface fsCanonical execFn0 =
      .err (.invalidInterface (.inconsistent
        (strBytes (printSig (preprocess_function_ast execFn0).sig)) funcSignatureText)) ∧
    strBytes (printSig (preprocess_function_ast execFn0).sig) ≠ funcSignatureText :=
  ⟨rfl, by decide⟩

/-- Counterexample for claim C5 as stated: applying the command-phase
normalization twice yields a different canonical signature text (an extra
receiver) than applying it once. -/
theorem c5_idempotence_counterexample :
    printSig (preprocess_function_ast (preprocess_function_ast execFn0)).sig ≠
      printSig (preprocess_function_ast execFn0).sig := by
  decide

/-- Counterexample for claim C7 as stated: a successful capture in a
non-debug build returns the empty token stream, not the input
declaration. -/
theorem c7_release_returns_empty_counterexample :
    macroIsOk (wgse_command false args0 execFn0 fsAccepting) = true ∧
    macroOut (wgse_command false args0 execFn0 fsAccepting) = none ∧
    (none : Option RsFn) ≠ some execFn0 :=
  ⟨rfl, rfl, by simp⟩

/-- Counterexample for claim C4 as stated: with no Interface Capture Record
file at all, the failure is the plain I/O error, not the instructive
`MissingInterfaceError`. -/
theorem c4_missing_record_counterexample :
    check_function_interface fsEmpty execFn0 = .err .ioErr ∧
    RErr.ioErr ≠ RErr.invalidInterface IfaceMsg.noSignature :=
  ⟨rfl, by simp⟩


/-! ## Payload postconditions -/

theorem get_json_payload_ok_raw (fs : Fs) (p : List String) (v : Json)
    (h : get_json_payload fs p = .ok v) : ∃ s, jsonLookup v rawKey = some (.str s) := by
  unfold get_json_payload at h
  rcases hfs : fsGet fs p with _ | content
  · simp only [hfs] at h
    exact RResult.noConfusion h
  · simp only [hfs] at h
    by_cases hval : isValidUtf8 content = false
    · rw [if_pos hval] at h
      exact RResult.noConfusion h
    · rw [if_neg hval] at h
      rcases hdoc : fromStr content with _ | v0
      · simp only [hdoc] at h
        exact RResult.noConfusion h
      · simp only [hdoc] at h
        rcases hlk : jsonLookup v0 rawKey with _ | w
        · simp only [hlk] at h
          exact RResult.noConfusion h
        · simp only [hlk] at h
          cases w with
          | str s =>
            rcases hdec : b64Decode s with _ | bytes
            · simp only [hdec] at h
              exact RResult.noConfusion h
            · simp only [hdec] at h
              by_cases hb : isValidUtf8 bytes
              · rw [if_pos hb] at h
                have hv : v = jsonSet v0 rawKey (.str bytes) := by
                  cases h
                  rfl
                subst hv
                obtain ⟨fsj, rfl⟩ : ∃ fsj, v0 = .obj fsj := by
                  cases v0 with
                  | obj fsj => exact ⟨fsj, rfl⟩
                  | null => simp [jsonLookup] at hlk
                  | bool b => simp [jsonLookup] at hlk
                  | num n => simp [jsonLookup] at hlk
                  | str s2 => simp [jsonLookup] at hlk
                  | arr xs => simp [jsonLookup] at hlk
                refine ⟨bytes, ?_⟩
                simp only [jsonSet, jsonLookup]
                exact fieldsLookup_fieldsSet fsj rawKey _
              · rw [if_neg hb] at h
                exact RResult.noConfusion h
          | null => simp only [hlk] at h; exact RResult.noConfusion h
          | bool b => simp only [hlk] at h; exact RResult.noConfusion h
          | num n => simp only [hlk] at h; exact RResult.noConfusion h
          | arr xs => simp only [hlk] at h; exact RResult.noConfusion h
          | obj fs2 => simp only [hlk] at h; exact RResult.noConfusion h

theorem get_json_payload_err_shape (fs : Fs) (p : List String) (e : RErr)
    (h : get_json_payload fs p = .err e) :
    e = .ioErr ∨ e = .jsonErr ∨ e = .base64Err ∨ e = .utf8Err := by
  unfold get_json_payload at h
  rcases hfs : fsGet fs p with _ | content
  · simp only [hfs] at h
    simp at h
    simp [h]
  · simp only [hfs] at h
    by_cases hval : isValidUtf8 content = false
    · rw [if_pos hval] at h
      simp at h
      simp [h]
    · rw [if_neg hval] at h
      rcases hdoc : fromStr content with _ | v0
      · simp only [hdoc] at h
        simp at h
        simp [h]
      · simp only [hdoc] at h
        rcases hlk : jsonLookup v0 rawKey with _ | w
        · simp only [hlk] at h
          exact RResult.noConfusion h
        · simp only [hlk] at h
          cases w with
          | str s =>
            rcases hdec : b64Decode s with _ | bytes
            · simp only [hdec] at h
              simp at h
              simp [h]
            · simp only [hdec] at h
              by_cases hb : isValidUtf8 bytes
              · rw [if_pos hb] at h
                exact RResult.noConfusion h
              · rw [if_neg hb] at h
                simp at h
                simp [h]
          | null => exact RResult.noConfusion h
          | bool b => exact RResult.noConfusion h
          | num n => exact RResult.noConfusion h
          | arr xs => exact RResult.noConfusion h
          | obj fs2 => exact RResult.noConfusion h


/-- Claim C4 — corrected.  When the Interface Capture Record file is absent,
`check_function_interface` fails with the underlying I/O error from
`File::open`, not with the instructive `MissingInterfaceError`; moreover the
instructive error (`"no interface signature found. run meta_init first"`) is
unreachable for every store and function, because a successful
`get_json_payload` always yields a document whose `raw` field is a string. -/
theorem c4_missing_record_error (fs : Fs) (f : RsFn) :
    (fsGet fs autogenInterfacePath = none →
      check_function_interface fs f = .err .ioErr) ∧
    check_function_interface fs f ≠ .err (.invalidInterface .noSignature) := by
  constructor
  · intro habs
    unfold check_function_interface
    have hget : get_json_payload fs autogenInterfacePath = .err .ioErr := by
      unfold get_json_payload
      rw [habs]
    rw [hget]
  · intro hbad
    unfold check_function_interface at hbad
    rcases hget : get_json_payload fs autogenInterfacePath with payload | e | _
    · obtain ⟨s, hs⟩ := get_json_payload_ok_raw fs autogenInterfacePath payload hget
      rw [hget] at hbad
      simp only [hs] at hbad
      by_cases hsig : s = funcSignatureText
      · rw [if_pos hsig] at hbad
        exact RResult.noConfusion hbad
      · rw [if_neg hsig] at hbad
        have := (RResult.err.injEq _ _).mp hbad
        have h2 := (RErr.invalidInterface.injEq _ _).mp this
        exact IfaceMsg.noConfusion h2
    · have hshape := get_json_payload_err_shape fs autogenInterfacePath e hget
      rw [hget] at hbad
      have he : e = RErr.invalidInterface IfaceMsg.noSignature :=
        (RResult.err.injEq _ _).mp hbad
      subst he
      rcases hshape with h | h | h | h <;> exact RErr.noConfusion h
    · rw [hget] at hbad
      exact RResult.noConfusion hbad

/-- Witness for claim C4's amended statement on the empty store. -/
theorem c4_missing_record_error_witness :
    check_function_interface fsEmpty execFn0 = .err .ioErr ∧
    check_function_interface fsEmpty execFn0 ≠ .err (.invalidInterface .noSignature) :=
  ⟨(c4_missing_record_error fsEmpty execFn0).1 rfl,
    (c4_missing_record_error fsEmpty execFn0).2⟩

theorem renameArgPat_idem (a : RsArg) : renameArgPat (renameArgPat a) = renameArgPat a := by
  cases a with
  | receiver => rfl
  | typed p ty => cases p <;> rfl

theorem renamePats_idem (l : List RsArg) : renamePats (renamePats l) = renamePats l := by
  unfold renamePats
  rw [List.map_map]
  exact List.map_congr_left (fun a _ => renameArgPat_idem a)

/-- Claim C5 — corrected.  The interface-phase normalization (which injects
no receiver) is idempotent; the command-phase normalization
`preprocess_function_ast` is not: a second application changes only by
inserting one more receiver parameter at the front of the canonical
signature. -/
theorem c5_normalization_idempotence :
    (∀ t : RsTraitFn, interfaceNormalize (interfaceNormalize t) = interfaceNormalize t) ∧
    (∀ f : RsFn, preprocess_function_ast (preprocess_function_ast f) =
      insertReceiver (preprocess_function_ast f)) := by
  constructor
  · intro t
    unfold interfaceNormalize
    simp [renamePats_idem]
  · intro f
    unfold preprocess_function_ast insertReceiver
    have hr : renamePats (RsArg.receiver :: renamePats (RsArg.receiver :: f.sig.inputs)) =
        RsArg.receiver :: renamePats (RsArg.receiver :: f.sig.inputs) := by
      rw [show (RsArg.receiver :: renamePats (RsArg.receiver :: f.sig.inputs)) =
        renamePats (RsArg.receiver :: RsArg.receiver :: f.sig.inputs) from rfl]
      rw [renamePats_idem]
    simp [hr]

/-- Claim C7 — corrected.  On a successful capture the `wgse_command` macro
returns the input declaration unmodified only under `cfg(debug_assertions)`;
in a release build it returns the empty token stream. -/
theorem c7_returns_input (debugAssertions : Bool) (args : MetaCollectArgs)
    (input : RsFn) (fs : Fs)
    (h : macroIsOk (wgse_command debugAssertions args input fs) = true) :
    macroOut (wgse_command debugAssertions args input fs) =
      if debugAssertions then some input else none := by
  unfold wgse_command at *
  rcases himp : wgse_command_impl args input fs with p | e | _
  · simp only [himp] at *
    rfl
  · simp only [himp] at h
    simp [macroIsOk] at h
  · simp only [himp] at h
    simp [macroIsOk] at h

/-- Witness for claim C7's amended statement: a successful debug-build
capture returning the input unmodified. -/
theorem c7_returns_input_witness :
    macroIsOk (wgse_command true args0 execFn0 fsAccepting) = true ∧
    macroOut (wgse_command true args0 execFn0 fsAccepting) =
      (if true then some execFn0 else none) :=
  ⟨rfl, c7_returns_input true args0 execFn0 fsAccepting rfl⟩


/-- Claim C8 — corrected (amended side).  `get_json_payload` returns a
`StoreError`-style error whenever the file is missing, not valid UTF-8,
not valid JSON, or its `raw` field is a string that is not valid base64. -/
theorem c8_get_store_errors (fs : Fs) (path : List String)
    (h : storeReadBad fs path) : ∃ e, get_json_payload fs path = .err e := by
  unfold get_json_payload
  rcases h with h | ⟨c, hc, hbad⟩ | ⟨c, hc, hvv, hp⟩ | ⟨c, v, s, hc, hvv, hp, hlk, hdec⟩
  · rw [h]
    exact ⟨.ioErr, rfl⟩
  · simp only [hc, hbad, reduceIte]
    exact ⟨.ioErr, rfl⟩
  · simp only [hc, hvv, Bool.true_eq_false, reduceIte, hp]
    exact ⟨.jsonErr, rfl⟩
  · simp only [hc, hvv, Bool.true_eq_false, reduceIte, hp, hlk, hdec]
    exact ⟨.base64Err, rfl⟩

/-- Witness for claim C8's amended statement: reading a missing file. -/
theorem c8_get_store_errors_witness :
    storeReadBad fsEmpty path0 ∧ (∃ e, get_json_payload fsEmpty path0 = .err e) :=
  ⟨Or.inl rfl, c8_get_store_errors fsEmpty path0 (Or.inl rfl)⟩

/-- Counterexample for claim C8 as stated: the file content
`\x7b"raw":0\x7d` is valid JSON whose `raw` field is not valid base64 (it
is a number), yet `get_json_payload` panics instead of returning an
error. -/
theorem c8_raw_nonstring_panics :
    fromStr rawNumContent = some (Json.obj (.cons rawKey (.num 0) .nil)) ∧
    get_json_payload fsRawNum path0 = .panic :=
  ⟨rfl, rfl⟩

/-- Claim C9 — confirmed.  `parse_command_files` computes the same result on
a walk whose failed traversal entries have been removed: a traversal error
is silently skipped rather than aborting the phase. -/
theorem c9_walk_errors_skipped (fs : Fs) (traitName : String) :
    ∀ entries : List (Except Unit DirEntry),
    parse_command_files fs traitName entries =
      parse_command_files fs traitName (entries.filter entryOk)
  | [] => rfl
  | .error u :: rest => by
    rw [List.filter_cons]
    simp only [entryOk, Bool.false_eq_true, reduceIte]
    simp only [parse_command_files]
    exact c9_walk_errors_skipped fs traitName rest
  | .ok entry :: rest => by
    rw [List.filter_cons]
    simp only [entryOk, reduceIte]
    simp only [parse_command_files]
    rw [c9_walk_errors_skipped fs traitName rest]

theorem process_command_file_ok (fs : Fs) (tn : String) (entry : DirEntry)
    (r : RResult (List GenDecl × List String)) (ds : List GenDecl) (tags : List String)
    (h : process_command_file fs tn entry r = .ok (ds, tags)) :
    r = .ok (ds, tags) ∨
    (∃ nm code fn ds0 tags0, r = .ok (ds0, tags0) ∧
      ds = GenDecl.constDecl (toUpperSnake nm) code :: GenDecl.markerStruct nm ::
        GenDecl.implDecl tn nm fn :: ds0 ∧
      tags = nm :: tags0) := by
  unfold process_command_file at h
  by_cases hfile : entry.isFile = false
  · rw [if_pos hfile] at h
    exact Or.inl h
  · rw [if_neg hfile] at h
    rcases hget : get_json_payload fs entry.path with payload | e | _
    all_goals simp only [hget] at h
    · rcases hnm : jsonLookup payload nameKey with _ | w
      all_goals simp only [hnm] at h
      · exact RResult.noConfusion h
      · cases w with
        | str nameBytes =>
          rcases hcode : jsonLookup payload codeKey with _ | w2
          all_goals simp only [hcode] at h
          · exact RResult.noConfusion h
          · cases w2 with
            | num code =>
              rcases hraw : jsonLookup payload rawKey with _ | w3
              all_goals simp only [hraw] at h
              · exact RResult.noConfusion h
              · cases w3 with
                | str raw =>
                  rcases hfn : parseItemFn raw with _ | fn
                  all_goals simp only [hfn] at h
                  · exact RResult.noConfusion h
                  · by_cases hident : (isIdentStr (toUpperCamel (bytesToString nameBytes)) &&
                        isIdentStr (toUpperSnake (toUpperCamel (bytesToString nameBytes)))) = true
                    · rw [if_pos hident] at h
                      rcases hr : r with p | e2 | _
                      all_goals simp only [hr] at h
                      · rcases p with ⟨ds0, tags0⟩
                        refine Or.inr ⟨toUpperCamel (bytesToString nameBytes), code,
                          { fn with vis := .inherited,
                                    sig := { fn.sig with ident := "execute" } },
                          ds0, tags0, rfl, ?_, ?_⟩
                        · have := (RResult.ok.injEq _ _).mp h
                          exact ((Prod.mk.injEq _ _ _ _).mp this).1.symm
                        · have := (RResult.ok.injEq _ _).mp h
                          exact ((Prod.mk.injEq _ _ _ _).mp this).2.symm
                      · exact RResult.noConfusion h
                      · exact RResult.noConfusion h
                    · rw [if_neg hident] at h
                      exact RResult.noConfusion h
                | null => exact RResult.noConfusion h
                | bool b => exact RResult.noConfusion h
                | num n2 => exact RResult.noConfusion h
                | arr xs => exact RResult.noConfusion h
                | obj f2 => exact RResult.noConfusion h
            | null => exact RResult.noConfusion h
            | bool b => exact RResult.noConfusion h
            | str s2 => exact RResult.noConfusion h
            | arr xs => exact RResult.noConfusion h
            | obj f2 => exact RResult.noConfusion h
        | null => exact RResult.noConfusion h
        | bool b => exact RResult.noConfusion h
        | num n2 => exact RResult.noConfusion h
        | arr xs => exact RResult.noConfusion h
        | obj f2 => exact RResult.noConfusion h
    · exact RResult.noConfusion h
    · exact RResult.noConfusion h


theorem parse_command_files_markers (fs : Fs) (tn : String) :
    ∀ (entries : List (Except Unit DirEntry)) (ds : List GenDecl) (tags : List String),
    parse_command_files fs tn entries = .ok (ds, tags) →
    (∀ n, GenDecl.markerStruct n ∈ ds ↔ n ∈ tags) ∧
    (∀ e v, GenDecl.defaultImpl e v ∉ ds) ∧
    (∀ e ts, GenDecl.enumDecl e ts ∉ ds)
  | [], ds, tags, h => by
    simp only [parse_command_files] at h
    have hp := (RResult.ok.injEq _ _).mp h
    have h1 : ds = [] := ((Prod.mk.injEq _ _ _ _).mp hp).1.symm
    have h2 : tags = [] := ((Prod.mk.injEq _ _ _ _).mp hp).2.symm
    subst h1
    subst h2
    simp
  | .error u :: rest, ds, tags, h => by
    simp only [parse_command_files] at h
    exact parse_command_files_markers fs tn rest ds tags h
  | .ok entry :: rest, ds, tags, h => by
    simp only [parse_command_files] at h
    rcases process_command_file_ok fs tn entry _ ds tags h with hsk |
      ⟨nm, code, fn, ds0, tags0, hr, hds, htags⟩
    · exact parse_command_files_markers fs tn rest ds tags hsk
    · have ih := parse_command_files_markers fs tn rest ds0 tags0 hr
      subst hds
      subst htags
      refine ⟨fun n => ?_, fun e v => ?_, fun e ts => ?_⟩
      · simp only [List.mem_cons]
        constructor
        · rintro (h1 | h1 | h1 | h1)
          · exact absurd h1 (by simp)
          · injection h1 with h2
            exact Or.inl h2

          · exact absurd h1 (by simp)
          · exact Or.inr ((ih.1 n).mp h1)
        · rintro (h1 | h1)
          · subst h1
            exact Or.inr (Or.inl rfl)
          · exact Or.inr (Or.inr (Or.inr ((ih.1 n).mpr h1)))
      · simp only [List.mem_cons]
        rintro (h1 | h1 | h1 | h1)
        · exact absurd h1 (by simp)
        · exact absurd h1 (by simp)
        · exact absurd h1 (by simp)
        · exact ih.2.1 e v h1
      · simp only [List.mem_cons]
        rintro (h1 | h1 | h1 | h1)
        · exact absurd h1 (by simp)
        · exact absurd h1 (by simp)
        · exact absurd h1 (by simp)
        · exact ih.2.2 e ts h1

/-- Claim C6 — confirmed.  Whenever the generation phase succeeds, the
emitted declarations contain a `Default` implementation constructing
exactly the variant named `Nope` (and no other default), the variant list is
exactly the discovered tags, and when no fragment produced a `Nope` tag the
output contains no `Nope` marker struct — the phase still succeeds, without
fabricating one or detecting the absence. -/
theorem c6_default_variant_nope (fs : Fs) (entries : List (Except Unit DirEntry))
    (tn : String) (enm : RsEnum) (ds : List GenDecl) (tags : List String)
    (h : parse_command_files fs tn entries = .ok (ds, tags)) :
    wgse_command_trait_impl fs entries tn enm =
      .ok (ds ++ [.enumDecl enm tags, .defaultImpl enm "Nope"]) ∧
    (∀ e v, GenDecl.defaultImpl e v ∈ ds ++ [.enumDecl enm tags, .defaultImpl enm "Nope"] →
      e = enm ∧ v = "Nope") ∧
    ("Nope" ∉ tags →
      GenDecl.markerStruct "Nope" ∉ ds ++ [.enumDecl enm tags, .defaultImpl enm "Nope"]) := by
  have hm := parse_command_files_markers fs tn entries ds tags h
  refine ⟨?_, ?_, ?_⟩
  · unfold wgse_command_trait_impl
    rw [h]
  · intro e v hv
    rcases List.mem_append.mp hv with h1 | h1
    · exact absurd h1 (hm.2.1 e v)
    · simp only [List.mem_cons, List.not_mem_nil, or_false] at h1
      rcases h1 with h1 | h1
      · exact absurd h1 (by simp)
      · injection h1 with h2 h3
        exact ⟨h2, h3⟩
  · intro hno hmem
    rcases List.mem_append.mp hmem with h1 | h1
    · exact hno ((hm.1 "Nope").mp h1)
    · simp only [List.mem_cons, List.not_mem_nil, or_false] at h1
      rcases h1 with h1 | h1
      · exact absurd h1 (by simp)
      · exact absurd h1 (by simp)

/-- Witness for claim C6 on a store holding one fragment named `Echo` and
no `Nope` fragment: generation succeeds and still emits the `Nope`
default. -/
theorem c6_default_variant_nope_witness :
    parse_command_files fsGenerate "WgseCommandExecute" entriesGen =
      .ok (genDecls0, genTags0) ∧
    genTags0 = ["Echo"] ∧
    wgse_command_trait_impl fsGenerate entriesGen "WgseCommandExecute" enum0 =
      .ok (genDecls0 ++ [.enumDecl enum0 genTags0, .defaultImpl enum0 "Nope"]) :=
  ⟨rfl, rfl,
    (c6_default_variant_nope fsGenerate entriesGen "WgseCommandExecute" enum0
      genDecls0 genTags0 rfl).1⟩

theorem sameShapeArg_rename (a b : RsArg) (h : sameShapeArg a b) :
    renameArgPat a = renameArgPat b := by
  cases a with
  | receiver =>
    cases b with
    | receiver => rfl
    | typed p ty => cases p <;> simp [sameShapeArg] at h
  | typed p ty =>
    cases p with
    | ident nm =>
      cases b with
      | receiver => simp [sameShapeArg] at h
      | typed q ty2 =>
        cases q with
        | ident nm2 =>
          have : ty = ty2 := h
          subst this
          rfl
        | tuple qs => simp [sameShapeArg] at h
    | tuple ps =>
      cases b with
      | receiver => simp [sameShapeArg] at h
      | typed q ty2 =>
        cases q with
        | ident nm2 => simp [sameShapeArg] at h
        | tuple qs =>
          have h2 : ps = qs ∧ ty = ty2 := h
          rw [h2.1, h2.2]

theorem renamePats_shape : ∀ l1 l2 : List RsArg, List.Forall₂ sameShapeArg l1 l2 →
    renamePats l1 = renamePats l2 := by
  intro l1 l2 h
  induction h with
  | nil => rfl
  | cons ha htl ih =>
    show renameArgPat _ :: renamePats _ = renameArgPat _ :: renamePats _
    rw [sameShapeArg_rename _ _ ha, ih]

/-- Claim C10 — confirmed.  Identifier erasure renames a parameter binding
to the placeholder only for plain-identifier patterns; any other pattern
keeps its original binding names in the canonical text.  Hence the canonical
text is invariant under renaming identifier-pattern bindings (same shapes
give the same canonical signature), while renaming the bindings inside a
tuple pattern changes the canonical signature. -/
theorem c10_ident_erasure_only :
    (∀ nm ty, renameArgPat (.typed (.ident nm) ty) = .typed (.ident "_") ty) ∧
    (∀ ps ty, renameArgPat (.typed (.tuple ps) ty) = .typed (.tuple ps) ty) ∧
    (∀ f g : RsFn, List.Forall₂ sameShapeArg f.sig.inputs g.sig.inputs →
      f.sig.output = g.sig.output →
      printSig (preprocess_function_ast f).sig = printSig (preprocess_function_ast g).sig) ∧
    printSig (preprocess_function_ast tupleFnA).sig ≠
      printSig (preprocess_function_ast tupleFnB).sig := by
  refine ⟨fun nm ty => rfl, fun ps ty => rfl, ?_, by decide⟩
  intro f g hshape hout
  unfold preprocess_function_ast
  have : renamePats (RsArg.receiver :: f.sig.inputs) =
      renamePats (RsArg.receiver :: g.sig.inputs) :=
    renamePats_shape _ _ (List.Forall₂.cons trivial hshape)
  rw [this, hout]

/-- Witness for claim C10's invariance part, at two functions differing
only in identifier-pattern parameter names. -/
theorem c10_ident_erasure_only_witness :
    List.Forall₂ sameShapeArg identFnA.sig.inputs identFnB.sig.inputs ∧
    identFnA.sig.output = identFnB.sig.output ∧
    printSig (preprocess_function_ast identFnA).sig =
      printSig (preprocess_function_ast identFnB).sig := by
  have hshape : List.Forall₂ sameShapeArg identFnA.sig.inputs identFnB.sig.inputs :=
    List.Forall₂.cons rfl (List.Forall₂.cons rfl List.Forall₂.nil)
  exact ⟨hshape, rfl, c10_ident_erasure_only.2.2.1 identFnA identFnB hshape rfl⟩


end Wgse
